import Mathlib

/-!
Verification of the evaluation-orchestration core of the pydantic-evals
TypeScript package (`src/ts/pydantic-evals`).

The development shallowly embeds the core data model and algorithms:

* JavaScript objects / `Map`s with string keys are embedded as association
  lists (`AList`) preserving insertion order; `obj[k] = v` becomes `aset`
  (replace-in-place when the key exists, append otherwise), which agrees with
  JS semantics because all embedded objects have unique keys.
* JS `number` is embedded as `Rat` (the aggregation algorithms only use
  `+`, `/` and comparisons on values the tests exercise exactly).
* Thrown JS errors are embedded as `Except JsError`; `async` functions are
  embedded as pure functions (the orchestrator awaits every promise it
  creates, and `Promise.all` preserves positional order, so the resulting
  value is the same as sequential evaluation).
* Wall-clock timing (`performance.now`) is an ambient runtime effect with no
  data flow back into the algorithms under verification; durations produced
  inside `evaluate` are embedded as `0`.
* The `AsyncLocalStorage`-based task-run scope is embedded as explicit
  `Option TaskRun` state: `none` models "no task run in scope".
-/

namespace PydanticEvals

/-! ### Association lists: the embedding of JS objects and Maps -/

/-- A JS object / `Map` with string keys, in insertion order. -/
abbrev AList (α : Type) := List (String × α)

/-- Key lookup (`obj[k]`, `map.get(k)`): first entry with the key. -/
def alookup {α : Type} : AList α → String → Option α
  | [], _ => none
  | (k', v) :: rest, k => if k' = k then some v else alookup rest k

/-- Key assignment (`obj[k] = v`, `map.set(k, v)`): replace the first entry
with the key in place, or append a new entry. -/
def aset {α : Type} : AList α → String → α → AList α
  | [], k, v => [(k, v)]
  | (k', v') :: rest, k, v =>
    if k' = k then (k', v) :: rest else (k', v') :: aset rest k v

/-- `Object.keys` / iteration order of keys. -/
def akeys {α : Type} (l : AList α) : List String := l.map Prod.fst

/-- Sum of all values of an association list (used for label distributions). -/
def sumValues (l : AList Rat) : Rat := (l.map Prod.snd).sum

theorem alookup_aset_self {α : Type} (l : AList α) (k : String) (v : α) :
    alookup (aset l k v) k = some v := by
  induction l with
  | nil => simp [aset, alookup]
  | cons hd tl ih =>
    obtain ⟨k0, v0⟩ := hd
    by_cases h : k0 = k
    · simp [aset, alookup, h]
    · simp [aset, alookup, h, ih]

theorem alookup_aset_ne {α : Type} (l : AList α) (k k' : String) (v : α)
    (h : k' ≠ k) : alookup (aset l k v) k' = alookup l k' := by
  have h' : ¬ k = k' := fun hh => h hh.symm
  induction l with
  | nil => simp [aset, alookup, h']
  | cons hd tl ih =>
    obtain ⟨k0, v0⟩ := hd
    by_cases hk : k0 = k
    · subst hk
      simp [aset, alookup, h']
    · simp [aset, alookup, hk, ih]

theorem mem_akeys_aset {α : Type} (l : AList α) (k k' : String) (v : α) :
    k' ∈ akeys (aset l k v) ↔ k' ∈ akeys l ∨ k' = k := by
  induction l with
  | nil => simp [aset, akeys, eq_comm]
  | cons hd tl ih =>
    obtain ⟨k0, v0⟩ := hd
    by_cases h : k0 = k
    · subst h
      simp [aset, akeys]
      tauto
    · simp [aset, akeys, h] at ih ⊢
      rw [ih]
      tauto

theorem alookup_eq_none_iff {α : Type} (l : AList α) (k : String) :
    alookup l k = none ↔ k ∉ akeys l := by
  induction l with
  | nil => simp [alookup, akeys]
  | cons hd tl ih =>
    obtain ⟨k0, v0⟩ := hd
    by_cases h : k0 = k
    · simp [alookup, akeys, h]
    · have h' : ¬ k = k0 := fun hh => h hh.symm
      simp [alookup, akeys, h, h', ih]

theorem alookup_isSome_iff {α : Type} (l : AList α) (k : String) :
    (alookup l k).isSome ↔ k ∈ akeys l := by
  rw [Option.isSome_iff_ne_none, Ne, alookup_eq_none_iff, not_not]

theorem sumValues_aset (l : AList Rat) (k : String) (v : Rat) :
    sumValues (aset l k v) = sumValues l + v - ((alookup l k).getD 0) := by
  induction l with
  | nil => simp [aset, sumValues, alookup]
  | cons hd tl ih =>
    obtain ⟨k0, v0⟩ := hd
    by_cases h : k0 = k
    · subst h
      simp [aset, alookup, sumValues]
      ring
    · simp [aset, alookup, sumValues, h] at ih ⊢
      rw [ih]
      ring

/-! ### The result model (`types.ts`) -/

/-- A JS `Error` value: class name, message, optional stack trace. -/
structure JsError where
  name : String
  message : String
  stack : Option String
deriving DecidableEq, Repr

/-- `EvaluationScalar`: `boolean | number | string`, tagged by runtime type. -/
inductive Scalar where
  | b (v : Bool)
  | n (v : Rat)
  | s (v : String)
deriving DecidableEq, Repr

/-- `EvaluatorSpec`: serialization record for an evaluator. The `arguments`
payload is opaque to the core algorithms and embedded as an atom. -/
structure EvaluatorSpec where
  name : String
  arguments : Option String
deriving DecidableEq, Repr

/-- `EvaluationResult<T>`: one fully normalized named evaluation outcome. -/
structure EvaluationResult (α : Type) where
  name : String
  value : α
  reason : Option String
  source : EvaluatorSpec
deriving DecidableEq, Repr

/-- `EvaluatorFailure`: an evaluator whose `evaluate` threw. -/
structure EvaluatorFailure where
  name : String
  errorMessage : String
  errorStacktrace : String
  source : EvaluatorSpec
deriving DecidableEq, Repr

/-- A scalar or a `{value, reason?}` pair (one entry of an evaluator output). -/
inductive ScalarOrReason where
  | scalar (v : Scalar)
  | reasoned (v : Scalar) (reason : Option String)
deriving DecidableEq, Repr

/-- `EvaluatorOutput`: scalar, reasoned scalar, or name-keyed mapping. -/
inductive EvaluatorOutput where
  | scalar (v : Scalar)
  | reasoned (v : Scalar) (reason : Option String)
  | mapping (entries : AList ScalarOrReason)
deriving DecidableEq, Repr

/-! ### Evaluator contract and runner (`run-evaluator.ts`) -/

/-- The span tree handed to the evaluator context: either a captured tree or
the deferred recording-error placeholder. Span contents are outside the core
and carry no data the core algorithms read. -/
inductive SpanTreeOrError where
  | tree
  | recordingError (message : String)
deriving DecidableEq, Repr

/-- `EvaluatorContext`: the immutable per-run view passed to evaluators. -/
structure EvaluatorContext (I O M : Type) where
  name : Option String
  inputs : I
  metadata : Option M
  expectedOutput : Option O
  output : O
  duration : Rat
  attributes : AList String
  metrics : AList Rat
  spanTreeOrError : SpanTreeOrError

/-- A case-level evaluator: its `evaluate` body (which may throw), its
`getDefaultEvaluationName()` and its `asSpec()`. -/
structure Evaluator (I O M : Type) where
  evaluate : EvaluatorContext I O M → Except JsError EvaluatorOutput
  defaultEvaluationName : String
  spec : EvaluatorSpec

/-- Result of `runEvaluator`: `EvaluationResult[] | EvaluatorFailure`. -/
inductive RunEvaluatorResult where
  | results (rs : List (EvaluationResult Scalar))
  | failure (f : EvaluatorFailure)
deriving DecidableEq, Repr

/-- `normalizeToMapping`: wrap a scalar or reasoned scalar as a singleton
mapping under the given name; pass a mapping through. -/
def normalizeToMapping : EvaluatorOutput → String → AList ScalarOrReason
  | .scalar v, scalarName => [(scalarName, .scalar v)]
  | .reasoned v r, scalarName => [(scalarName, .reasoned v r)]
  | .mapping m, _ => m

/-- `runEvaluator`: run one evaluator against one context, normalizing its
output and converting a thrown error into an `EvaluatorFailure`. -/
def runEvaluator {I O M : Type} (ev : Evaluator I O M)
    (ctx : EvaluatorContext I O M) : RunEvaluatorResult :=
  match ev.evaluate ctx with
  | .error e =>
    .failure
      { name := ev.defaultEvaluationName
        errorMessage := e.name ++ ": " ++ e.message
        errorStacktrace := e.stack.getD ""
        source := ev.spec }
  | .ok rawResults =>
    let results := normalizeToMapping rawResults ev.defaultEvaluationName
    .results (results.map fun p =>
      match p.2 with
      | .scalar v => { name := p.1, value := v, reason := none, source := ev.spec }
      | .reasoned v r => { name := p.1, value := v, reason := r, source := ev.spec })

/-- The scalar carried by a `ScalarOrReason` (spec vocabulary for C3). -/
def ScalarOrReason.valuePart : ScalarOrReason → Scalar
  | .scalar v => v
  | .reasoned v _ => v

/-- The reason carried by a `ScalarOrReason` (spec vocabulary for C3). -/
def ScalarOrReason.reasonPart : ScalarOrReason → Option String
  | .scalar _ => none
  | .reasoned _ r => r

/-- C3: For every evaluator and context, `runEvaluator` never lets an exception
escape: a thrown error becomes an `EvaluatorFailure` with the error type and
message joined by a colon and the stack trace (empty when unavailable);
a bare scalar or reasoned scalar is normalized to a single result named by
the evaluator's default evaluation name; a mapping is normalized to one
result per entry, named by that entry's key. -/
theorem runEvaluator_normalizes {I O M : Type} (ev : Evaluator I O M)
    (ctx : EvaluatorContext I O M) :
    (∀ e, ev.evaluate ctx = .error e →
      runEvaluator ev ctx = .failure
        { name := ev.defaultEvaluationName
          errorMessage := e.name ++ ": " ++ e.message
          errorStacktrace := e.stack.getD ""
          source := ev.spec }) ∧
    (∀ v, ev.evaluate ctx = .ok (.scalar v) →
      runEvaluator ev ctx = .results
        [{ name := ev.defaultEvaluationName, value := v, reason := none,
           source := ev.spec }]) ∧
    (∀ v r, ev.evaluate ctx = .ok (.reasoned v r) →
      runEvaluator ev ctx = .results
        [{ name := ev.defaultEvaluationName, value := v, reason := r,
           source := ev.spec }]) ∧
    (∀ m, ev.evaluate ctx = .ok (.mapping m) →
      runEvaluator ev ctx = .results (m.map fun p =>
        { name := p.1, value := p.2.valuePart, reason := p.2.reasonPart,
          source := ev.spec })) := by
  refine ⟨fun e he => ?_, fun v hv => ?_, fun v r hvr => ?_, fun m hm => ?_⟩
  · simp [runEvaluator, he]
  · simp [runEvaluator, hv, normalizeToMapping]
  · simp [runEvaluator, hvr, normalizeToMapping]
  · simp only [runEvaluator, hm, normalizeToMapping, RunEvaluatorResult.results.injEq]
    apply List.map_congr_left
    intro p _
    cases h : p.2 <;> simp [ScalarOrReason.valuePart, ScalarOrReason.reasonPart, h]

/-- Witness for C3: a concrete evaluator exercising every branch. -/
theorem runEvaluator_normalizes_witness :
    let spec : EvaluatorSpec := { name := "MyEval", arguments := none }
    let ctx : EvaluatorContext Nat Nat Nat :=
      { name := some "c", inputs := 0, metadata := none, expectedOutput := none,
        output := 0, duration := 0, attributes := [], metrics := [],
        spanTreeOrError := .recordingError "no otel" }
    let evFail : Evaluator Nat Nat Nat :=
      { evaluate := fun _ => .error { name := "TypeError", message := "boom", stack := none },
        defaultEvaluationName := "MyEval", spec := spec }
    runEvaluator evFail ctx = .failure
      { name := "MyEval", errorMessage := "TypeError: boom", errorStacktrace := "",
        source := spec } := by
  intro spec ctx evFail
  exact (runEvaluator_normalizes evFail ctx).1 _ rfl


/-! ### Task-run scope (`context.ts`) -/

/-- The mutable per-task-run accumulator held by the `AsyncLocalStorage`
scope. Attribute values are opaque to the core and embedded as strings. -/
structure TaskRun where
  attributes : AList String
  metrics : AList Rat
deriving DecidableEq, Repr

/-- `withTaskRun`: run a function inside a fresh task-run scope and return
its result together with the attributes and metrics collected. -/
def withTaskRun {α : Type} (f : TaskRun → Except JsError (α × TaskRun)) :
    Except JsError (α × TaskRun) :=
  f { attributes := [], metrics := [] }

/-- `setEvalAttribute`: record an attribute on the current task run; silent
no-op when no task run is in scope (`none`). -/
def setEvalAttribute (name : String) (value : String) :
    Option TaskRun → Option TaskRun
  | none => none
  | some tr => some { tr with attributes := aset tr.attributes name value }

/-- `incrementEvalMetric`: add to a metric of the current task run; silent
no-op when no task run is in scope, and a metric whose current and new
running values are both zero is not recorded. -/
def incrementEvalMetric (name : String) (amount : Rat) :
    Option TaskRun → Option TaskRun
  | none => none
  | some tr =>
    let currentValue := (alookup tr.metrics name).getD 0
    let newValue := currentValue + amount
    if currentValue = 0 ∧ newValue = 0 then some tr
    else some { tr with metrics := aset tr.metrics name newValue }

/-- C10: `setEvalAttribute` and `incrementEvalMetric` are silent no-ops
outside a task-run scope (they never throw and record nothing); an increment
by 0 of a metric with no prior recorded value does not create the metric key
(the task run is returned unchanged), whereas any increment yielding a
non-zero running value creates or updates the key with that running value. -/
theorem evalMetricHelpers_scoped (n v : String) (a : Rat) (tr : TaskRun) :
    (setEvalAttribute n v none = none) ∧
    (incrementEvalMetric n a none = none) ∧
    (alookup tr.metrics n = none → incrementEvalMetric n 0 (some tr) = some tr) ∧
    ((alookup tr.metrics n).getD 0 + a ≠ 0 →
      ∃ tr', incrementEvalMetric n a (some tr) = some tr' ∧
        alookup tr'.metrics n = some ((alookup tr.metrics n).getD 0 + a)) := by
  refine ⟨rfl, rfl, fun h => ?_, fun h => ?_⟩
  · simp [incrementEvalMetric, h]
  · refine ⟨{ tr with metrics := aset tr.metrics n ((alookup tr.metrics n).getD 0 + a) }, ?_, ?_⟩
    · simp only [incrementEvalMetric]
      rw [if_neg]
      intro hc
      exact h hc.2
    · exact alookup_aset_self _ _ _

/-! ### Name deduplication (`dataset.ts`, `groupEvaluatorOutputsByType`) -/

/-- The candidate name obtained by appending an underscore suffix. -/
def suffixedName (base : String) (suffix : Nat) : String :=
  base ++ "_" ++ toString suffix

/-- The suffix-search loop: try increasing suffixes until one is unused.
The source loops unboundedly; `dedupName` passes fuel that always suffices
(`searchSuffix_not_mem`), so the embedding computes the same name. -/
def searchSuffix (seen : List String) (base : String) : Nat → Nat → String
  | suffix, 0 => suffixedName base suffix
  | suffix, fuel+1 =>
    if suffixedName base suffix ∈ seen then searchSuffix seen base (suffix+1) fuel
    else suffixedName base suffix

/-- Rename a result whose name was already used: append `_2`, `_3`, ...,
incrementing until an unused name is found. -/
def dedupName (seen : List String) (base : String) : String :=
  if base ∈ seen then searchSuffix seen base 2 seen.length else base

/-! Injectivity of the decimal rendering of naturals, needed to show the
suffix search always finds a fresh name within its fuel. -/

theorem toDigitsCore_eq_digits (f : Nat) : ∀ (n : Nat) (acc : List Char), n < f →
    Nat.toDigitsCore 10 f n acc =
      (if n = 0 then ['0'] else ((Nat.digits 10 n).map Nat.digitChar).reverse) ++ acc := by
  induction f with
  | zero => intro n acc h; omega
  | succ f ih =>
    intro n acc h
    rw [Nat.toDigitsCore]
    by_cases h0 : n / 10 = 0
    · rw [if_pos h0]
      by_cases hn : n = 0
      · subst hn
        simp only [if_pos rfl]
        rfl
      · rw [if_neg hn, Nat.digits_def' (by norm_num : (1:Nat) < 10) (Nat.pos_of_ne_zero hn)]
        rw [h0]
        simp
    · rw [if_neg h0]
      have hn : n ≠ 0 := by omega
      have hlt : n / 10 < f := by omega
      rw [ih (n / 10) _ hlt, if_neg h0]
      rw [if_neg hn, Nat.digits_def' (by norm_num : (1:Nat) < 10) (Nat.pos_of_ne_zero hn)]
      simp

theorem repr_eq_digits (n : Nat) :
    Nat.repr n =
      (if n = 0 then ['0'] else ((Nat.digits 10 n).map Nat.digitChar).reverse).asString := by
  show (Nat.toDigitsCore 10 (n+1) n []).asString = _
  rw [toDigitsCore_eq_digits (n+1) n [] (Nat.lt_succ_self n)]
  simp

theorem asString_inj (l l' : List Char) (h : l.asString = l'.asString) : l = l' := by
  have := congrArg String.data h
  simpa [List.asString] using this

theorem digitChar_inj_lt :
    ∀ a, a < 10 → ∀ b, b < 10 → Nat.digitChar a = Nat.digitChar b → a = b := by decide

theorem map_digitChar_inj : ∀ (l1 l2 : List Nat), (∀ d ∈ l1, d < 10) → (∀ d ∈ l2, d < 10) →
    l1.map Nat.digitChar = l2.map Nat.digitChar → l1 = l2 := by
  intro l1
  induction l1 with
  | nil =>
    intro l2 _ _ h
    cases l2 with
    | nil => rfl
    | cons b t2 => simp at h
  | cons a t ih =>
    intro l2 h1 h2 h
    cases l2 with
    | nil => simp at h
    | cons b t2 =>
      simp only [List.map_cons, List.cons.injEq] at h
      have ha : a < 10 := h1 a (by simp)
      have hb : b < 10 := h2 b (by simp)
      have hab : a = b := digitChar_inj_lt a ha b hb h.1
      rw [hab, ih t2 (fun d hd => h1 d (by simp [hd])) (fun d hd => h2 d (by simp [hd])) h.2]

theorem natRepr_inj (m n : Nat) (h : Nat.repr m = Nat.repr n) : m = n := by
  rw [repr_eq_digits, repr_eq_digits] at h
  have h' := asString_inj _ _ h
  by_cases hm : m = 0 <;> by_cases hn : n = 0
  · rw [hm, hn]
  · exfalso
    rw [if_pos hm, if_neg hn] at h'
    have hlen : (Nat.digits 10 n).length = 1 := by
      have := congrArg List.length h'
      simpa using this.symm
    obtain ⟨d, hd⟩ := List.length_eq_one.mp hlen
    rw [hd] at h'
    simp at h'
    have hd10 : d < 10 := Nat.digits_lt_base (by norm_num) (by rw [hd]; simp)
    have hchar : Nat.digitChar 0 = d.digitChar := by
      rw [show Nat.digitChar 0 = '0' from rfl]
      first
      | exact h'
      | exact h'.symm
    have hd0 : (0:Nat) = d := digitChar_inj_lt 0 (by norm_num) d hd10 hchar
    have hofd := Nat.ofDigits_digits 10 n
    rw [hd, ← hd0] at hofd
    simp [Nat.ofDigits] at hofd
    exact hn hofd.symm
  · exfalso
    rw [if_neg hm, if_pos hn] at h'
    have hlen : (Nat.digits 10 m).length = 1 := by
      have := congrArg List.length h'
      simpa using this
    obtain ⟨d, hd⟩ := List.length_eq_one.mp hlen
    rw [hd] at h'
    simp at h'
    have hd10 : d < 10 := Nat.digits_lt_base (by norm_num) (by rw [hd]; simp)
    have hchar : Nat.digitChar 0 = d.digitChar := by
      rw [show Nat.digitChar 0 = '0' from rfl]
      first
      | exact h'
      | exact h'.symm
    have hd0 : (0:Nat) = d := digitChar_inj_lt 0 (by norm_num) d hd10 hchar
    have hofd := Nat.ofDigits_digits 10 m
    rw [hd, ← hd0] at hofd
    simp [Nat.ofDigits] at hofd
    exact hm hofd.symm
  · rw [if_neg hm, if_neg hn] at h'
    have h'' := List.reverse_injective h'
    exact Nat.digits.injective 10 (map_digitChar_inj _ _
      (fun d hd => Nat.digits_lt_base (by norm_num) hd)
      (fun d hd => Nat.digits_lt_base (by norm_num) hd) h'')

theorem suffixedName_inj (base : String) (i j : Nat)
    (h : suffixedName base i = suffixedName base j) : i = j := by
  unfold suffixedName at h
  have hd := congrArg String.data h
  simp only [String.data_append, List.append_assoc] at hd
  have h2 := List.append_cancel_left (List.append_cancel_left hd)
  exact natRepr_inj i j (String.ext h2)

theorem exists_free_suffix (seen : List String) (base : String) :
    ∃ k ≤ seen.length, suffixedName base (2 + k) ∉ seen := by
  by_contra hall
  push_neg at hall
  have hsub : ∀ a ∈ Finset.range (seen.length + 1), suffixedName base (2 + a) ∈ seen.toFinset := by
    intro a ha
    rw [List.mem_toFinset]
    exact hall a (Nat.lt_succ_iff.mp (Finset.mem_range.mp ha))
  have hinj : Set.InjOn (fun a => suffixedName base (2 + a)) ↑(Finset.range (seen.length + 1)) := by
    intro a _ b _ hab
    have := suffixedName_inj base (2 + a) (2 + b) hab
    omega
  have hcard := Finset.card_le_card_of_injOn _ hsub hinj
  rw [Finset.card_range] at hcard
  have hle := List.toFinset_card_le seen
  omega

theorem searchSuffix_not_mem (seen : List String) (base : String) :
    ∀ (fuel suffix : Nat), (∃ k ≤ fuel, suffixedName base (suffix + k) ∉ seen) →
      searchSuffix seen base suffix fuel ∉ seen := by
  intro fuel
  induction fuel with
  | zero =>
    intro suffix h
    obtain ⟨k, hk, hfree⟩ := h
    have hk0 : k = 0 := Nat.le_zero.mp hk
    subst hk0
    simpa [searchSuffix] using hfree
  | succ f ih =>
    intro suffix h
    rw [searchSuffix]
    by_cases hmem : suffixedName base suffix ∈ seen
    · rw [if_pos hmem]
      apply ih
      obtain ⟨k, hk, hfree⟩ := h
      have hk0 : k ≠ 0 := by
        rintro rfl
        rw [Nat.add_zero] at hfree
        exact hfree hmem
      refine ⟨k - 1, by omega, ?_⟩
      have heq : suffix + 1 + (k - 1) = suffix + k := by omega
      rw [heq]
      exact hfree
    · rw [if_neg hmem]
      exact hmem

/-- The name chosen by the dedup is never one already seen. -/
theorem dedupName_not_mem (seen : List String) (base : String) :
    dedupName seen base ∉ seen := by
  unfold dedupName
  by_cases h : base ∈ seen
  · rw [if_pos h]
    exact searchSuffix_not_mem seen base seen.length 2 (exists_free_suffix seen base)
  · rw [if_neg h]
    exact h

/-! ### Grouping evaluator outputs by runtime value type -/

/-- The three typed result maps built by `groupEvaluatorOutputsByType`. -/
structure GroupedOutputs where
  assertions : AList (EvaluationResult Bool)
  scores : AList (EvaluationResult Rat)
  labels : AList (EvaluationResult String)
deriving DecidableEq, Repr

/-- One iteration of the loop in `groupEvaluatorOutputsByType`: dedup the
result name against the seen set, then file the result into the map matching
its runtime value type. -/
def groupStep (acc : GroupedOutputs × List String) (er : EvaluationResult Scalar) :
    GroupedOutputs × List String :=
  let name := dedupName acc.2 er.name
  let seen := name :: acc.2
  match er.value with
  | .b v =>
    ({ acc.1 with assertions := aset acc.1.assertions name ⟨name, v, er.reason, er.source⟩ }, seen)
  | .n v =>
    ({ acc.1 with scores := aset acc.1.scores name ⟨name, v, er.reason, er.source⟩ }, seen)
  | .s v =>
    ({ acc.1 with labels := aset acc.1.labels name ⟨name, v, er.reason, er.source⟩ }, seen)

/-- `groupEvaluatorOutputsByType`: partition a unit's evaluator results by
runtime value type into assertions/scores/labels, deduplicating names. -/
def groupEvaluatorOutputsByType (results : List (EvaluationResult Scalar)) : GroupedOutputs :=
  (results.foldl groupStep (⟨[], [], []⟩, [])).1

/-- Invariant of the grouping loop: all keys are seen, and the three key sets
are pairwise disjoint. -/
def GroupedInv (st : GroupedOutputs × List String) : Prop :=
  (∀ k ∈ akeys st.1.assertions, k ∈ st.2) ∧
  (∀ k ∈ akeys st.1.scores, k ∈ st.2) ∧
  (∀ k ∈ akeys st.1.labels, k ∈ st.2) ∧
  (∀ k, ¬(k ∈ akeys st.1.assertions ∧ k ∈ akeys st.1.scores)) ∧
  (∀ k, ¬(k ∈ akeys st.1.assertions ∧ k ∈ akeys st.1.labels)) ∧
  (∀ k, ¬(k ∈ akeys st.1.scores ∧ k ∈ akeys st.1.labels))

theorem groupStep_inv (st : GroupedOutputs × List String) (er : EvaluationResult Scalar)
    (h : GroupedInv st) : GroupedInv (groupStep st er) := by
  obtain ⟨ha, hs, hl, has, hal, hsl⟩ := h
  have hfresh := dedupName_not_mem st.2 er.name
  unfold groupStep
  cases hv : er.value with
  | b v =>
    refine ⟨?_, ?_, ?_, ?_, ?_, ?_⟩ <;> simp only
    · intro k hk
      rcases (mem_akeys_aset _ _ _ _).mp hk with hk | hk
      · exact List.mem_cons_of_mem _ (ha k hk)
      · exact hk ▸ List.mem_cons_self _ _
    · intro k hk
      exact List.mem_cons_of_mem _ (hs k hk)
    · intro k hk
      exact List.mem_cons_of_mem _ (hl k hk)
    · rintro k ⟨hk1, hk2⟩
      rcases (mem_akeys_aset _ _ _ _).mp hk1 with hk1 | hk1
      · exact has k ⟨hk1, hk2⟩
      · exact hfresh (hk1 ▸ hs k hk2)
    · rintro k ⟨hk1, hk2⟩
      rcases (mem_akeys_aset _ _ _ _).mp hk1 with hk1 | hk1
      · exact hal k ⟨hk1, hk2⟩
      · exact hfresh (hk1 ▸ hl k hk2)
    · rintro k ⟨hk1, hk2⟩
      exact hsl k ⟨hk1, hk2⟩
  | n v =>
    refine ⟨?_, ?_, ?_, ?_, ?_, ?_⟩ <;> simp only
    · intro k hk
      exact List.mem_cons_of_mem _ (ha k hk)
    · intro k hk
      rcases (mem_akeys_aset _ _ _ _).mp hk with hk | hk
      · exact List.mem_cons_of_mem _ (hs k hk)
      · exact hk ▸ List.mem_cons_self _ _
    · intro k hk
      exact List.mem_cons_of_mem _ (hl k hk)
    · rintro k ⟨hk1, hk2⟩
      rcases (mem_akeys_aset _ _ _ _).mp hk2 with hk2 | hk2
      · exact has k ⟨hk1, hk2⟩
      · exact hfresh (hk2 ▸ ha k hk1)
    · rintro k ⟨hk1, hk2⟩
      exact hal k ⟨hk1, hk2⟩
    · rintro k ⟨hk1, hk2⟩
      rcases (mem_akeys_aset _ _ _ _).mp hk1 with hk1 | hk1
      · exact hsl k ⟨hk1, hk2⟩
      · exact hfresh (hk1 ▸ hl k hk2)
  | s v =>
    refine ⟨?_, ?_, ?_, ?_, ?_, ?_⟩ <;> simp only
    · intro k hk
      exact List.mem_cons_of_mem _ (ha k hk)
    · intro k hk
      exact List.mem_cons_of_mem _ (hs k hk)
    · intro k hk
      rcases (mem_akeys_aset _ _ _ _).mp hk with hk | hk
      · exact List.mem_cons_of_mem _ (hl k hk)
      · exact hk ▸ List.mem_cons_self _ _
    · rintro k ⟨hk1, hk2⟩
      exact has k ⟨hk1, hk2⟩
    · rintro k ⟨hk1, hk2⟩
      rcases (mem_akeys_aset _ _ _ _).mp hk2 with hk2 | hk2
      · exact hal k ⟨hk1, hk2⟩
      · exact hfresh (hk2 ▸ ha k hk1)
    · rintro k ⟨hk1, hk2⟩
      rcases (mem_akeys_aset _ _ _ _).mp hk2 with hk2 | hk2
      · exact hsl k ⟨hk1, hk2⟩
      · exact hfresh (hk2 ▸ hs k hk1)

theorem groupFold_inv (results : List (EvaluationResult Scalar))
    (st : GroupedOutputs × List String) (h : GroupedInv st) :
    GroupedInv (results.foldl groupStep st) := by
  induction results generalizing st with
  | nil => exact h
  | cons hd tl ih => exact ih _ (groupStep_inv st hd h)

/-- C5: Within one unit, scanning the concatenated evaluator-output list left
to right, a result whose name was already used is renamed by appending "_2",
then "_3", ..., incrementing until an unused name is found; consequently in
the grouped maps every result name appears in at most one of the scores,
labels and assertions maps, and three colliding results all named "check"
are filed under "check", "check_2" and "check_3". -/
theorem groupOutputs_dedup_names (results : List (EvaluationResult Scalar)) (k : String) :
    (¬(k ∈ akeys (groupEvaluatorOutputsByType results).assertions ∧
       k ∈ akeys (groupEvaluatorOutputsByType results).scores)) ∧
    (¬(k ∈ akeys (groupEvaluatorOutputsByType results).assertions ∧
       k ∈ akeys (groupEvaluatorOutputsByType results).labels)) ∧
    (¬(k ∈ akeys (groupEvaluatorOutputsByType results).scores ∧
       k ∈ akeys (groupEvaluatorOutputsByType results).labels)) ∧
    akeys (groupEvaluatorOutputsByType
      [⟨"check", .b true, none, ⟨"Check", none⟩⟩,
       ⟨"check", .b false, none, ⟨"Check", none⟩⟩,
       ⟨"check", .b true, none, ⟨"Check", none⟩⟩]).assertions =
      ["check", "check_2", "check_3"] := by
  have hinit : GroupedInv (⟨[], [], []⟩, ([] : List String)) := by
    refine ⟨?_, ?_, ?_, ?_, ?_, ?_⟩ <;> simp [akeys]
  have hinv := groupFold_inv results (⟨[], [], []⟩, []) hinit
  exact ⟨hinv.2.2.2.1 k, hinv.2.2.2.2.1 k, hinv.2.2.2.2.2 k, by decide⟩

/-- Witness for C5: a name filed as an assertion is absent from the scores. -/
theorem groupOutputs_dedup_names_witness :
    "check" ∉ akeys (groupEvaluatorOutputsByType
      [⟨"check", Scalar.b true, none, ⟨"Check", none⟩⟩]).scores :=
  fun hmem =>
    (groupOutputs_dedup_names [⟨"check", Scalar.b true, none, ⟨"Check", none⟩⟩] "check").1
      ⟨by decide, hmem⟩

/-- Witness for C10: concrete increments on an empty task run. -/
theorem evalMetricHelpers_scoped_witness :
    incrementEvalMetric "m" 0 (some ⟨[], []⟩) = some ⟨[], []⟩ ∧
    (∃ tr', incrementEvalMetric "m" 1 (some ⟨[], []⟩) = some tr' ∧
      alookup tr'.metrics "m" =
        some ((alookup (TaskRun.mk [] []).metrics "m").getD 0 + 1)) :=
  ⟨(evalMetricHelpers_scoped "m" "v" 1 ⟨[], []⟩).2.2.1 rfl,
   (evalMetricHelpers_scoped "m" "v" 1 ⟨[], []⟩).2.2.2 (by norm_num [alookup])⟩

/-! ### Report model (`reporting/report.ts`) -/

/-- `ReportCase`: one successfully executed run. -/
structure ReportCase (I O M : Type) where
  name : String
  inputs : I
  metadata : Option M
  expectedOutput : Option O
  output : O
  metrics : AList Rat
  attributes : AList String
  scores : AList (EvaluationResult Rat)
  labels : AList (EvaluationResult String)
  assertions : AList (EvaluationResult Bool)
  taskDuration : Rat
  totalDuration : Rat
  sourceCaseName : Option String
  traceId : Option String
  spanId : Option String
  evaluatorFailures : List EvaluatorFailure
deriving DecidableEq, Repr

/-- `ReportCaseFailure`: a run whose task execution threw. -/
structure ReportCaseFailure (I O M : Type) where
  name : String
  inputs : I
  metadata : Option M
  expectedOutput : Option O
  errorMessage : String
  errorStacktrace : String
  sourceCaseName : Option String
  traceId : Option String
  spanId : Option String
deriving DecidableEq, Repr

/-- `ReportCaseAggregate`: averaged statistics over a set of cases. -/
structure ReportCaseAggregate where
  name : String
  scores : AList Rat
  labels : AList (AList Rat)
  metrics : AList Rat
  assertions : Option Rat
  taskDuration : Rat
  totalDuration : Rat
deriving DecidableEq, Repr

/-- `ReportCaseGroup`: the repeated runs and failures sharing a source case. -/
structure ReportCaseGroup (I O M : Type) where
  name : String
  inputs : I
  metadata : Option M
  expectedOutput : Option O
  runs : List (ReportCase I O M)
  failures : List (ReportCaseFailure I O M)
  summary : ReportCaseAggregate
deriving DecidableEq, Repr

/-- A report-level analysis record (discriminated union in `analyses.ts`);
only the discriminant and title matter to the orchestration core. -/
inductive ReportAnalysis where
  | confusionMatrix (title : String) (description : Option String)
      (classLabels : List String) (matrix : List (List Rat))
  | precisionRecall (title : String) (description : Option String)
  | scalar (title : String) (description : Option String) (value : Rat) (unit : Option String)
  | table (title : String) (description : Option String) (columns : List String)
deriving DecidableEq, Repr

/-- `EvaluationReport` (data part): the derived operations `caseGroups` and
`averages` are the standalone functions `computeCaseGroups` and
`computeAverages` below. -/
structure EvaluationReport (I O M : Type) where
  name : String
  cases : List (ReportCase I O M)
  failures : List (ReportCaseFailure I O M)
  analyses : List ReportAnalysis
  reportEvaluatorFailures : List EvaluatorFailure
  experimentMetadata : Option (AList String)
  traceId : Option String
  spanId : Option String
deriving DecidableEq, Repr

/-! ### Dataset, cases and the evaluation orchestrator (`dataset.ts`) -/

/-- A single test case. Absent `evaluators` is embedded as `[]` (the source
reads it as `c.evaluators ?? []`). -/
structure Case (I O M : Type) where
  name : Option String
  inputs : I
  metadata : Option M
  expectedOutput : Option O
  evaluators : List (Evaluator I O M)

/-- The context handed to report-level evaluators. -/
structure ReportEvaluatorContext (I O M : Type) where
  name : String
  report : EvaluationReport I O M
  experimentMetadata : Option (AList String)

/-- Output of a report evaluator: a single analysis or an array of them. -/
inductive ReportEvaluatorOutput where
  | single (a : ReportAnalysis)
  | many (l : List ReportAnalysis)

/-- A report-level evaluator: its `evaluate` body (which may throw), its
`getSerializationName()` and its `asSpec()`. -/
structure ReportEvaluator (I O M : Type) where
  evaluate : ReportEvaluatorContext I O M → Except JsError ReportEvaluatorOutput
  serializationName : String
  spec : EvaluatorSpec

/-- A dataset of test cases with dataset-wide and report-level evaluators. -/
structure Dataset (I O M : Type) where
  name : Option String
  cases : List (Case I O M)
  evaluators : List (Evaluator I O M)
  reportEvaluators : List (ReportEvaluator I O M)

/-- Options of `Dataset.evaluate`. `maxConcurrency` bounds scheduling only
and cannot change the (positionally reassembled) result, so it is carried
but unused by the embedding. -/
structure EvaluateOptions where
  name : Option String
  maxConcurrency : Option Nat
  progress : Option Bool
  repeatCount : Option Int
  metadata : Option (AList String)

/-- A task body: from inputs, inside the ambient task-run scope, produce an
output (and the updated scope) or throw. -/
abbrev Task (I O : Type) := I → TaskRun → Except JsError (O × TaskRun)

/-- The span-capture result for a task run. In this environment no
OpenTelemetry tracer provider is configured, so `withSpanCapture` yields the
deferred recording-error placeholder; its contents are read by no core
algorithm. -/
def spanCaptureResult : SpanTreeOrError :=
  .recordingError
    ("To make use of the span tree in an evaluator, you must configure an " ++
     "OpenTelemetry tracer provider before running an evaluation.")

/-- `Dataset.buildTasksToRun`: the `(case, reportName, sourceName)` units,
honoring the repeat count — `r` units per case named
`caseName [k/r]` and linked to the case when `r > 1`, one unlinked unit per
case named `case.name ?? "Case N"` otherwise. -/
def Dataset.buildTasksToRun {I O M : Type} (d : Dataset I O M) (rep : Int) :
    List (Case I O M × String × Option String) :=
  if rep > 1 then
    d.cases.enum.flatMap (fun ci =>
      let i := ci.1
      let c := ci.2
      let caseName := c.name.getD ("Case " ++ toString (i + 1))
      (List.range rep.toNat).map (fun runIdx =>
        (c, caseName ++ " [" ++ toString (runIdx + 1) ++ "/" ++ toString rep ++ "]",
         some caseName)))
  else
    d.cases.enum.map (fun ci => (ci.2, ci.2.name.getD ("Case " ++ toString (ci.1 + 1)), none))

/-- `Dataset.runTaskAndEvaluators`: execute one unit — run the task inside a
fresh task-run scope, then on success build the context, run the unioned
evaluators and group their outputs into a `ReportCase`; on task failure emit
a `ReportCaseFailure` capturing the error. -/
def Dataset.runTaskAndEvaluators {I O M : Type} (d : Dataset I O M) (task : Task I O)
    (c : Case I O M) (reportCaseName : String) (sourceCaseName : Option String) :
    ReportCase I O M ⊕ ReportCaseFailure I O M :=
  match withTaskRun (fun tr => task c.inputs tr) with
  | .error e =>
    .inr { name := reportCaseName, inputs := c.inputs, metadata := c.metadata,
           expectedOutput := c.expectedOutput,
           errorMessage := e.name ++ ": " ++ e.message,
           errorStacktrace := e.stack.getD "",
           sourceCaseName := sourceCaseName, traceId := none, spanId := none }
  | .ok (output, taskRun) =>
    let duration : Rat := 0
    let ctx : EvaluatorContext I O M :=
      { name := c.name, inputs := c.inputs, metadata := c.metadata,
        expectedOutput := c.expectedOutput, output := output, duration := duration,
        attributes := taskRun.attributes, metrics := taskRun.metrics,
        spanTreeOrError := spanCaptureResult }
    let allEvaluators := c.evaluators ++ d.evaluators
    let rs := allEvaluators.map (fun ev => runEvaluator ev ctx)
    let collected := rs.foldl (fun acc r =>
      match r with
      | .results l => (acc.1 ++ l, acc.2)
      | .failure f => (acc.1, acc.2 ++ [f])) (([], []) :
        List (EvaluationResult Scalar) × List EvaluatorFailure)
    let grouped := groupEvaluatorOutputsByType collected.1
    let totalDuration : Rat := 0
    .inl { name := reportCaseName, inputs := c.inputs, metadata := c.metadata,
           expectedOutput := c.expectedOutput, output := output,
           metrics := taskRun.metrics, attributes := taskRun.attributes,
           scores := grouped.scores, labels := grouped.labels,
           assertions := grouped.assertions,
           taskDuration := duration, totalDuration := totalDuration,
           sourceCaseName := sourceCaseName, traceId := none, spanId := none,
           evaluatorFailures := collected.2 }

/-- `Dataset.runReportEvaluators`: run each report evaluator in order against
the (aliased, progressively extended) report, appending its analyses or a
structured failure record. -/
def Dataset.runReportEvaluators {I O M : Type} (d : Dataset I O M) (taskName : String)
    (metadata : Option (AList String)) (report : EvaluationReport I O M) :
    EvaluationReport I O M :=
  d.reportEvaluators.foldl (fun rep re =>
    match re.evaluate { name := taskName, report := rep, experimentMetadata := metadata } with
    | .ok (.single a) => { rep with analyses := rep.analyses ++ [a] }
    | .ok (.many l) => { rep with analyses := rep.analyses ++ l }
    | .error e =>
      { rep with reportEvaluatorFailures := rep.reportEvaluatorFailures ++
          [{ name := re.serializationName,
             errorMessage := e.name ++ ": " ++ e.message,
             errorStacktrace := e.stack.getD "",
             source := re.spec }] }) report

/-- One step of the classification loop of `evaluate`: push a successful
unit onto the case list, a failed one onto the failure list. -/
def partitionStep {α β : Type} (acc : List α × List β) (r : α ⊕ β) : List α × List β :=
  match r with
  | Sum.inl c => (acc.1 ++ [c], acc.2)
  | Sum.inr f => (acc.1, acc.2 ++ [f])

/-- `Dataset.evaluate`: the orchestrator. Checks `repeat >= 1`, builds the
run units, executes each, partitions the results into cases and failures in
submission order, assembles the report, and runs report evaluators. -/
def Dataset.evaluate {I O M : Type} (d : Dataset I O M) (task : Task I O)
    (opts : EvaluateOptions) : Except JsError (EvaluationReport I O M) :=
  let rep := opts.repeatCount.getD 1
  if rep < 1 then
    .error { name := "Error", message := "repeat must be >= 1, got " ++ toString rep,
             stack := none }
  else
    let taskName := opts.name.getD "task"
    let tasksToRun := d.buildTasksToRun rep
    let results := tasksToRun.map (fun t => d.runTaskAndEvaluators task t.1 t.2.1 t.2.2)
    let partitioned := results.foldl partitionStep (([], []) :
        List (ReportCase I O M) × List (ReportCaseFailure I O M))
    let report : EvaluationReport I O M :=
      { name := taskName, cases := partitioned.1, failures := partitioned.2,
        analyses := [], reportEvaluatorFailures := [],
        experimentMetadata := opts.metadata, traceId := none, spanId := none }
    let report :=
      if d.reportEvaluators.length > 0 then
        d.runReportEvaluators taskName opts.metadata report
      else report
    .ok report

/-! ### Generic facts about the orchestrator's folds -/



theorem length_filterMap_countP {α β : Type} (g : α → Option β) (l : List α) :
    (l.filterMap g).length = l.countP (fun a => (g a).isSome) := by
  induction l with
  | nil => rfl
  | cons hd tl ih =>
    cases h : g hd with
    | none => simp [List.filterMap_cons, h, List.countP_cons, ih]
    | some b => simp [List.filterMap_cons, h, List.countP_cons, ih]

theorem sum_map_const_nat {α : Type} (l : List α) (k : Nat) :
    (l.map (fun _ => k)).sum = l.length * k := by
  induction l with
  | nil => simp
  | cons hd tl ih => simp [ih, Nat.succ_mul, Nat.add_comm]

/-- Indexing into a `flatMap` whose inner lists all have width `w`. -/
theorem flatMap_getElem_const_width {α β : Type} (w : Nat) (f : α → List β)
    (hw : ∀ a, (f a).length = w) :
    ∀ (l : List α) (i k : Nat), k < w →
      (l.flatMap f)[i * w + k]? = (l[i]?).bind (fun a => (f a)[k]?) := by
  intro l
  induction l with
  | nil => intro i k _; simp
  | cons hd tl ih =>
    intro i k hk
    rw [List.flatMap_cons]
    cases i with
    | zero =>
      rw [Nat.zero_mul, Nat.zero_add]
      rw [List.getElem?_append_left (by rw [hw hd]; exact hk)]
      simp
    | succ i =>
      have hidx : (i + 1) * w + k = (f hd).length + (i * w + k) := by
        rw [hw hd]
        ring
      rw [hidx, List.getElem?_append_right (by omega)]
      have : (f hd).length + (i * w + k) - (f hd).length = i * w + k := by omega
      rw [this, ih i k hk]
      simp

/-- Projection selecting successful runs from a unit result. -/
def caseOf {α β : Type} : α ⊕ β → Option α
  | Sum.inl c => some c
  | Sum.inr _ => none

/-- Projection selecting failures from a unit result. -/
def failureOf {α β : Type} : α ⊕ β → Option β
  | Sum.inl _ => none
  | Sum.inr f => some f

/-- The classification loop of `evaluate`, characterized: cases in
submission order on the left, failures in submission order on the right. -/
theorem partitionFold_spec {α β : Type} (results : List (α ⊕ β)) :
    ∀ (acc : List α × List β),
      results.foldl partitionStep acc =
      (acc.1 ++ results.filterMap caseOf, acc.2 ++ results.filterMap failureOf) := by
  induction results with
  | nil => intro acc; simp
  | cons hd tl ih =>
    intro acc
    cases hd with
    | inl c => rw [List.foldl_cons, ih]; simp [partitionStep, caseOf, failureOf]
    | inr f => rw [List.foldl_cons, ih]; simp [partitionStep, caseOf, failureOf]

theorem partitionFold_eq {α β : Type} (results : List (α ⊕ β)) :
    results.foldl partitionStep (([], []) : List α × List β) =
    (results.filterMap caseOf, results.filterMap failureOf) := by
  rw [partitionFold_spec]
  simp

/-- Report evaluators only append analyses and failure records; the case and
failure lists and the remaining report fields are untouched. -/
theorem runReportEvaluators_preserves {I O M : Type} (d : Dataset I O M)
    (taskName : String) (metadata : Option (AList String))
    (report : EvaluationReport I O M) :
    (d.runReportEvaluators taskName metadata report).cases = report.cases ∧
    (d.runReportEvaluators taskName metadata report).failures = report.failures ∧
    (d.runReportEvaluators taskName metadata report).name = report.name ∧
    (d.runReportEvaluators taskName metadata report).experimentMetadata =
      report.experimentMetadata := by
  unfold Dataset.runReportEvaluators
  generalize d.reportEvaluators = l
  induction l generalizing report with
  | nil => exact ⟨rfl, rfl, rfl, rfl⟩
  | cons hd tl ih =>
    rw [List.foldl_cons]
    cases hre : hd.evaluate ⟨taskName, report, metadata⟩ with
    | ok o => cases o <;> exact ih _
    | error e => exact ih _

/-- The body of `evaluate` past the precondition check, characterized: the
value is `ok`, and the underlying report's cases and failures are the
successful and failed unit results in submission order. -/
theorem evaluate_ok_spec {I O M : Type} (d : Dataset I O M) (task : Task I O)
    (opts : EvaluateOptions) (h : ¬ opts.repeatCount.getD 1 < 1) :
    ∃ report0 : EvaluationReport I O M,
      d.evaluate task opts = .ok (if d.reportEvaluators.length > 0 then
          d.runReportEvaluators (opts.name.getD "task") opts.metadata report0
        else report0) ∧
      report0.cases = ((d.buildTasksToRun (opts.repeatCount.getD 1)).map
          (fun t => d.runTaskAndEvaluators task t.1 t.2.1 t.2.2)).filterMap caseOf ∧
      report0.failures = ((d.buildTasksToRun (opts.repeatCount.getD 1)).map
          (fun t => d.runTaskAndEvaluators task t.1 t.2.1 t.2.2)).filterMap failureOf ∧
      report0.name = opts.name.getD "task" ∧
      report0.analyses = [] ∧
      report0.reportEvaluatorFailures = [] ∧
      report0.experimentMetadata = opts.metadata := by
  refine ⟨{ name := opts.name.getD "task",
            cases := (((d.buildTasksToRun (opts.repeatCount.getD 1)).map
              (fun t => d.runTaskAndEvaluators task t.1 t.2.1 t.2.2)).foldl
                partitionStep ([], [])).1,
            failures := (((d.buildTasksToRun (opts.repeatCount.getD 1)).map
              (fun t => d.runTaskAndEvaluators task t.1 t.2.1 t.2.2)).foldl
                partitionStep ([], [])).2,
            analyses := [], reportEvaluatorFailures := [],
            experimentMetadata := opts.metadata, traceId := none, spanId := none },
         ?_, ?_, ?_, rfl, rfl, rfl, rfl⟩
  · unfold Dataset.evaluate
    rw [if_neg h]
  · rw [partitionFold_eq]
  · rw [partitionFold_eq]

theorem buildTasksToRun_length {I O M : Type} (d : Dataset I O M) (rep : Int)
    (h : 1 ≤ rep) :
    (d.buildTasksToRun rep).length = d.cases.length * rep.toNat := by
  unfold Dataset.buildTasksToRun
  by_cases h1 : rep > 1
  · rw [if_pos h1, List.length_flatMap]
    have hconst : ∀ p ∈ d.cases.enum,
        (List.length ∘ fun (ci : Nat × Case I O M) =>
          (List.range rep.toNat).map (fun runIdx =>
            (ci.2, (ci.2.name.getD ("Case " ++ toString (ci.1 + 1))) ++ " [" ++
              toString (runIdx + 1) ++ "/" ++ toString rep ++ "]",
             some (ci.2.name.getD ("Case " ++ toString (ci.1 + 1)))))) p = rep.toNat := by
      intro p _
      simp
    rw [List.map_congr_left hconst, sum_map_const_nat, List.enum_length]
  · rw [if_neg h1]
    have h2 : rep = 1 := by omega
    subst h2
    simp [List.enum_length]

/-- The report-name and source-name fields of a unit's result come from the
unit itself, whichever way the task run ends. -/
theorem runTaskAndEvaluators_fields {I O M : Type} (d : Dataset I O M) (task : Task I O)
    (c : Case I O M) (rn : String) (sn : Option String) :
    (∀ rc, d.runTaskAndEvaluators task c rn sn = Sum.inl rc →
      rc.sourceCaseName = sn ∧ rc.name = rn) ∧
    (∀ f, d.runTaskAndEvaluators task c rn sn = Sum.inr f →
      f.sourceCaseName = sn ∧ f.name = rn) := by
  unfold Dataset.runTaskAndEvaluators
  cases h : withTaskRun (fun tr => task c.inputs tr) with
  | error e =>
    constructor
    · intro rc hrc
      exact absurd hrc (by simp)
    · intro f hf
      simp only [Sum.inr.injEq] at hf
      rw [← hf]
      exact ⟨rfl, rfl⟩
  | ok p =>
    constructor
    · intro rc hrc
      simp only [Sum.inl.injEq] at hrc
      rw [← hrc]
      exact ⟨rfl, rfl⟩
    · intro f hf
      exact absurd hf (by simp)

theorem length_filterMap_caseOf_add {α β : Type} (l : List (α ⊕ β)) :
    (l.filterMap caseOf).length + (l.filterMap failureOf).length = l.length := by
  induction l with
  | nil => rfl
  | cons hd tl ih =>
    cases hd with
    | inl c =>
      rw [List.filterMap_cons, List.filterMap_cons]
      show (c :: tl.filterMap caseOf).length + (tl.filterMap failureOf).length =
        (Sum.inl c :: tl : List (α ⊕ β)).length
      simp only [List.length_cons]
      omega
    | inr f =>
      rw [List.filterMap_cons, List.filterMap_cons]
      show (tl.filterMap caseOf).length + (f :: tl.filterMap failureOf).length =
        (Sum.inr f :: tl : List (α ⊕ β)).length
      simp only [List.length_cons]
      omega

/-- C1: For every dataset and repeat count r >= 1, `evaluate` returns a
report in which the number of ReportCases plus the number of
ReportCaseFailures equals (number of cases) * r: every scheduled unit yields
exactly one of the two record kinds and lands in exactly one of the two
lists. -/
theorem evaluate_case_failure_count {I O M : Type} (d : Dataset I O M) (task : Task I O)
    (opts : EvaluateOptions) (report : EvaluationReport I O M)
    (h : 1 ≤ opts.repeatCount.getD 1)
    (hok : d.evaluate task opts = .ok report) :
    report.cases.length + report.failures.length =
      d.cases.length * (opts.repeatCount.getD 1).toNat := by
  obtain ⟨report0, heq, hcases, hfails, -, -, -, -⟩ :=
    evaluate_ok_spec d task opts (by omega)
  have h3 := Except.ok.inj (hok.symm.trans heq)
  have hc : report.cases = report0.cases ∧ report.failures = report0.failures := by
    rw [h3]
    by_cases hlen : d.reportEvaluators.length > 0
    · rw [if_pos hlen]
      obtain ⟨p1, p2, -, -⟩ := runReportEvaluators_preserves d _ _ report0
      exact ⟨p1, p2⟩
    · rw [if_neg hlen]
      exact ⟨rfl, rfl⟩
  rw [hc.1, hc.2, hcases, hfails, length_filterMap_caseOf_add, List.length_map,
    buildTasksToRun_length d _ h]

/-- A concrete two-case dataset for the closed instances below. -/
def sampleDataset : Dataset Nat Nat Nat :=
  { name := some "ds",
    cases := [
      { name := some "x", inputs := 1, metadata := none, expectedOutput := some 2,
        evaluators := [] },
      { name := none, inputs := 2, metadata := none, expectedOutput := none,
        evaluators := [] }],
    evaluators := [], reportEvaluators := [] }

/-- A concrete task doubling its input but throwing on input 2. -/
def sampleTask : Task Nat Nat := fun i tr =>
  if i = 2 then .error { name := "TypeError", message := "boom", stack := none }
  else .ok (i * 2, tr)

/-- Concrete options with repeat 2. -/
def sampleOptsRepeat2 : EvaluateOptions :=
  { name := some "run", maxConcurrency := none, progress := none,
    repeatCount := some 2, metadata := none }

/-- Witness for C1: two cases, repeat 2, a task failing on one case — the
report still accounts for all four units. -/
theorem evaluate_case_failure_count_witness :
    (sampleDataset.evaluate sampleTask sampleOptsRepeat2).map
      (fun r => r.cases.length + r.failures.length) = .ok 4 := by
  cases hok : sampleDataset.evaluate sampleTask sampleOptsRepeat2 with
  | error e =>
    obtain ⟨r0, heq, -⟩ := evaluate_ok_spec sampleDataset sampleTask sampleOptsRepeat2
      (by decide)
    rw [heq] at hok
    exact Except.noConfusion hok
  | ok report =>
    have hcount := evaluate_case_failure_count sampleDataset sampleTask sampleOptsRepeat2
      report (by decide) hok
    simp only [Except.map, hcount]
    rfl

/-- C2: `evaluate` throws only for the precondition violation repeat < 1
(checked before any unit runs); for every other input it returns a report;
a task-execution error is captured as a `ReportCaseFailure` for that unit
alone whose errorMessage is "ErrorType: message" and whose stack trace is
empty when unavailable, without running evaluators for that unit; sibling
units are unaffected: the report's failure and case counts are exactly the
numbers of units whose task run throws resp. succeeds. -/
theorem evaluate_error_policy {I O M : Type} (d : Dataset I O M) (task : Task I O)
    (opts : EvaluateOptions) :
    (opts.repeatCount.getD 1 < 1 →
      d.evaluate task opts = .error
        { name := "Error",
          message := "repeat must be >= 1, got " ++ toString (opts.repeatCount.getD 1),
          stack := none }) ∧
    (1 ≤ opts.repeatCount.getD 1 → ∃ report, d.evaluate task opts = .ok report) ∧
    (∀ (c : Case I O M) (reportName : String) (sourceName : Option String) (e : JsError),
      task c.inputs { attributes := [], metrics := [] } = .error e →
      d.runTaskAndEvaluators task c reportName sourceName = Sum.inr
        { name := reportName, inputs := c.inputs, metadata := c.metadata,
          expectedOutput := c.expectedOutput,
          errorMessage := e.name ++ ": " ++ e.message,
          errorStacktrace := e.stack.getD "",
          sourceCaseName := sourceName, traceId := none, spanId := none }) ∧
    (1 ≤ opts.repeatCount.getD 1 → ∀ report, d.evaluate task opts = .ok report →
      report.failures.length = ((d.buildTasksToRun (opts.repeatCount.getD 1)).countP
        (fun t => match task t.1.inputs { attributes := [], metrics := [] } with
          | .error _ => true
          | .ok _ => false)) ∧
      report.cases.length = ((d.buildTasksToRun (opts.repeatCount.getD 1)).countP
        (fun t => match task t.1.inputs { attributes := [], metrics := [] } with
          | .error _ => false
          | .ok _ => true))) := by
  refine ⟨fun hlt => ?_, fun hge => ?_, fun c rn sn e he => ?_, fun hge report hok => ?_⟩
  · unfold Dataset.evaluate
    rw [if_pos hlt]
  · obtain ⟨report0, heq, -⟩ := evaluate_ok_spec d task opts (by omega)
    exact ⟨_, heq⟩
  · unfold Dataset.runTaskAndEvaluators
    have hrun : withTaskRun (fun tr => task c.inputs tr) = .error e := he
    rw [hrun]
  · obtain ⟨report0, heq, hcases, hfails, -, -, -, -⟩ :=
      evaluate_ok_spec d task opts (by omega)
    have h3 := Except.ok.inj (hok.symm.trans heq)
    have hc : report.cases = report0.cases ∧ report.failures = report0.failures := by
      rw [h3]
      by_cases hlen : d.reportEvaluators.length > 0
      · rw [if_pos hlen]
        obtain ⟨p1, p2, -, -⟩ := runReportEvaluators_preserves d _ _ report0
        exact ⟨p1, p2⟩
      · rw [if_neg hlen]
        exact ⟨rfl, rfl⟩
    constructor
    · rw [hc.2, hfails, length_filterMap_countP, List.countP_map]
      apply List.countP_congr
      intro t _
      show ((failureOf (d.runTaskAndEvaluators task t.1 t.2.1 t.2.2)).isSome = true) ↔ _
      unfold Dataset.runTaskAndEvaluators
      cases htask : task t.1.inputs { attributes := [], metrics := [] } with
      | error e =>
        have hrun : withTaskRun (fun tr => task t.1.inputs tr) = .error e := htask
        rw [hrun]
        simp [failureOf]
      | ok p =>
        have hrun : withTaskRun (fun tr => task t.1.inputs tr) = .ok p := htask
        rw [hrun]
        simp [failureOf]
    · rw [hc.1, hcases, length_filterMap_countP, List.countP_map]
      apply List.countP_congr
      intro t _
      show ((caseOf (d.runTaskAndEvaluators task t.1 t.2.1 t.2.2)).isSome = true) ↔ _
      unfold Dataset.runTaskAndEvaluators
      cases htask : task t.1.inputs { attributes := [], metrics := [] } with
      | error e =>
        have hrun : withTaskRun (fun tr => task t.1.inputs tr) = .error e := htask
        rw [hrun]
        simp [caseOf]
      | ok p =>
        have hrun : withTaskRun (fun tr => task t.1.inputs tr) = .ok p := htask
        rw [hrun]
        simp [caseOf]

/-- Witness for C2: repeat 0 throws the precondition error; a task error on
a concrete case yields the failure record with message "TypeError: boom"
and empty stack trace. -/
theorem evaluate_error_policy_witness :
    (sampleDataset.evaluate sampleTask
      { name := none, maxConcurrency := none, progress := none,
        repeatCount := some 0, metadata := none } = .error
        { name := "Error", message := "repeat must be >= 1, got 0", stack := none }) ∧
    (sampleDataset.runTaskAndEvaluators sampleTask
      { name := none, inputs := 2, metadata := none, expectedOutput := none,
        evaluators := [] }
      "Case 2" none = Sum.inr
        { name := "Case 2", inputs := 2, metadata := none, expectedOutput := none,
          errorMessage := "TypeError: boom", errorStacktrace := "",
          sourceCaseName := none, traceId := none, spanId := none }) := by
  constructor
  · exact (evaluate_error_policy sampleDataset sampleTask
      { name := none, maxConcurrency := none, progress := none,
        repeatCount := some 0, metadata := none }).1 (by decide)
  · exact (evaluate_error_policy sampleDataset sampleTask
      { name := none, maxConcurrency := none, progress := none,
        repeatCount := some 0, metadata := none }).2.2.1
      { name := none, inputs := 2, metadata := none, expectedOutput := none,
        evaluators := [] }
      "Case 2" none { name := "TypeError", message := "boom", stack := none } rfl

/-- The case and failure lists of a returned report are the partitioned unit
results, whatever the report evaluators appended elsewhere. -/
theorem evaluate_ok_cases_failures {I O M : Type} (d : Dataset I O M) (task : Task I O)
    (opts : EvaluateOptions) (report : EvaluationReport I O M)
    (h : ¬ opts.repeatCount.getD 1 < 1) (hok : d.evaluate task opts = .ok report) :
    report.cases = ((d.buildTasksToRun (opts.repeatCount.getD 1)).map
        (fun t => d.runTaskAndEvaluators task t.1 t.2.1 t.2.2)).filterMap caseOf ∧
    report.failures = ((d.buildTasksToRun (opts.repeatCount.getD 1)).map
        (fun t => d.runTaskAndEvaluators task t.1 t.2.1 t.2.2)).filterMap failureOf := by
  obtain ⟨report0, heq, hcases, hfails, -, -, -, -⟩ := evaluate_ok_spec d task opts h
  have h3 := Except.ok.inj (hok.symm.trans heq)
  rw [h3]
  by_cases hlen : d.reportEvaluators.length > 0
  · rw [if_pos hlen]
    obtain ⟨p1, p2, -, -⟩ := runReportEvaluators_preserves d _ _ report0
    rw [p1, p2]
    exact ⟨hcases, hfails⟩
  · rw [if_neg hlen]
    exact ⟨hcases, hfails⟩

theorem buildTasksToRun_repeat1_sourceName {I O M : Type} (d : Dataset I O M)
    (t : Case I O M × String × Option String) (ht : t ∈ d.buildTasksToRun 1) :
    t.2.2 = none := by
  unfold Dataset.buildTasksToRun at ht
  rw [if_neg (by omega)] at ht
  obtain ⟨p, -, rfl⟩ := List.mem_map.mp ht
  rfl

theorem buildTasksToRun_repeatGt1_sourceName {I O M : Type} (d : Dataset I O M)
    (rep : Int) (hrep : rep > 1) (t : Case I O M × String × Option String)
    (ht : t ∈ d.buildTasksToRun rep) :
    ∃ (i : Nat) (c : Case I O M), d.cases[i]? = some c ∧
      t.2.2 = some (c.name.getD ("Case " ++ toString (i + 1))) := by
  unfold Dataset.buildTasksToRun at ht
  rw [if_pos hrep, List.mem_flatMap] at ht
  obtain ⟨ci, hci, hmem⟩ := ht
  obtain ⟨runIdx, -, rfl⟩ := List.mem_map.mp hmem
  refine ⟨ci.1, ci.2, ?_, rfl⟩
  exact List.mem_enum_iff_getElem?.mp hci

/-- A report case or failure originates from some scheduled unit, and
carries that unit's source name. -/
theorem report_entries_from_units {I O M : Type} (d : Dataset I O M) (task : Task I O)
    (opts : EvaluateOptions) (report : EvaluationReport I O M)
    (h : ¬ opts.repeatCount.getD 1 < 1) (hok : d.evaluate task opts = .ok report) :
    (∀ rc ∈ report.cases, ∃ t ∈ d.buildTasksToRun (opts.repeatCount.getD 1),
      rc.sourceCaseName = t.2.2) ∧
    (∀ f ∈ report.failures, ∃ t ∈ d.buildTasksToRun (opts.repeatCount.getD 1),
      f.sourceCaseName = t.2.2) := by
  obtain ⟨hcases, hfails⟩ := evaluate_ok_cases_failures d task opts report h hok
  constructor
  · intro rc hrc
    rw [hcases] at hrc
    obtain ⟨r, hr, hcase⟩ := List.mem_filterMap.mp hrc
    obtain ⟨t, ht, rfl⟩ := List.mem_map.mp hr
    cases hrun : d.runTaskAndEvaluators task t.1 t.2.1 t.2.2 with
    | inl rc' =>
      rw [hrun] at hcase
      have : rc' = rc := by simpa [caseOf] using hcase
      subst this
      exact ⟨t, ht, ((runTaskAndEvaluators_fields d task t.1 t.2.1 t.2.2).1 rc' hrun).1⟩
    | inr f =>
      rw [hrun] at hcase
      simp [caseOf] at hcase
  · intro f hf
    rw [hfails] at hf
    obtain ⟨r, hr, hfail⟩ := List.mem_filterMap.mp hf
    obtain ⟨t, ht, rfl⟩ := List.mem_map.mp hr
    cases hrun : d.runTaskAndEvaluators task t.1 t.2.1 t.2.2 with
    | inl rc' =>
      rw [hrun] at hfail
      simp [failureOf] at hfail
    | inr f' =>
      rw [hrun] at hfail
      have : f' = f := by simpa [failureOf] using hfail
      subst this
      exact ⟨t, ht, ((runTaskAndEvaluators_fields d task t.1 t.2.1 t.2.2).2 f' hrun).1⟩

/-- C4: With repeat 1 the orchestrator schedules one unit per case, named
`case.name ?? "Case N"` (N the 1-based position) and unlinked, and every
resulting ReportCase/ReportCaseFailure has sourceCaseName none; with repeat
r > 1 it schedules r units per case in case-major repeat-minor order (unit
(i, k) at position i*r + k), named "caseName [k/r]" with k 1-based, and
every resulting entry's sourceCaseName is the originating case's name. -/
theorem evaluate_unit_naming {I O M : Type} (d : Dataset I O M) (task : Task I O)
    (opts : EvaluateOptions) :
    (∀ (i : Nat) (c : Case I O M), d.cases[i]? = some c →
      (d.buildTasksToRun 1)[i]? =
        some (c, c.name.getD ("Case " ++ toString (i + 1)), none)) ∧
    (∀ rep : Int, 1 < rep → ∀ (i : Nat) (c : Case I O M) (k : Nat),
      d.cases[i]? = some c → k < rep.toNat →
      (d.buildTasksToRun rep)[i * rep.toNat + k]? =
        some (c, c.name.getD ("Case " ++ toString (i + 1)) ++ " [" ++ toString (k + 1) ++
          "/" ++ toString rep ++ "]",
          some (c.name.getD ("Case " ++ toString (i + 1))))) ∧
    (opts.repeatCount.getD 1 = 1 → ∀ report, d.evaluate task opts = .ok report →
      (∀ rc ∈ report.cases, rc.sourceCaseName = none) ∧
      (∀ f ∈ report.failures, f.sourceCaseName = none)) ∧
    (1 < opts.repeatCount.getD 1 → ∀ report, d.evaluate task opts = .ok report →
      (∀ rc ∈ report.cases, ∃ (i : Nat) (c : Case I O M), d.cases[i]? = some c ∧
        rc.sourceCaseName = some (c.name.getD ("Case " ++ toString (i + 1)))) ∧
      (∀ f ∈ report.failures, ∃ (i : Nat) (c : Case I O M), d.cases[i]? = some c ∧
        f.sourceCaseName = some (c.name.getD ("Case " ++ toString (i + 1))))) := by
  refine ⟨fun i c hc => ?_, fun rep hrep i c k hc hk => ?_,
    fun hrep1 report hok => ?_, fun hrepGt report hok => ?_⟩
  · unfold Dataset.buildTasksToRun
    rw [if_neg (by omega), List.getElem?_map, List.getElem?_enum, hc]
    rfl
  · unfold Dataset.buildTasksToRun
    rw [if_pos (by omega), flatMap_getElem_const_width rep.toNat _ (fun a => by simp)
      _ i k hk]
    rw [List.getElem?_enum, hc]
    simp [List.getElem?_map, List.getElem?_range hk]
  · have hunits := report_entries_from_units d task opts report (by omega) hok
    constructor
    · intro rc hrc
      obtain ⟨t, ht, hsn⟩ := hunits.1 rc hrc
      rw [hsn]
      exact buildTasksToRun_repeat1_sourceName d t (hrep1 ▸ ht)
    · intro f hf
      obtain ⟨t, ht, hsn⟩ := hunits.2 f hf
      rw [hsn]
      exact buildTasksToRun_repeat1_sourceName d t (hrep1 ▸ ht)
  · have hunits := report_entries_from_units d task opts report (by omega) hok
    constructor
    · intro rc hrc
      obtain ⟨t, ht, hsn⟩ := hunits.1 rc hrc
      obtain ⟨i, c, hc, hname⟩ :=
        buildTasksToRun_repeatGt1_sourceName d _ (by omega) t ht
      exact ⟨i, c, hc, hsn.trans hname⟩
    · intro f hf
      obtain ⟨t, ht, hsn⟩ := hunits.2 f hf
      obtain ⟨i, c, hc, hname⟩ :=
        buildTasksToRun_repeatGt1_sourceName d _ (by omega) t ht
      exact ⟨i, c, hc, hsn.trans hname⟩

/-- Witness for C4: the second (unnamed) case of the sample dataset is
scheduled as "Case 2" unlinked under repeat 1, and as "Case 2 [2/2]" linked
to "Case 2" under repeat 2 at position 1*2+1. -/
theorem evaluate_unit_naming_witness :
    (sampleDataset.buildTasksToRun 1)[1]? =
      some ({ name := none, inputs := 2, metadata := none, expectedOutput := none,
              evaluators := [] }, "Case 2", none) ∧
    (sampleDataset.buildTasksToRun 2)[1 * (2 : Int).toNat + 1]? =
      some ({ name := none, inputs := 2, metadata := none, expectedOutput := none,
              evaluators := [] }, "Case 2 [2/2]", some "Case 2") := by
  constructor
  · exact (evaluate_unit_naming sampleDataset sampleTask sampleOptsRepeat2).1 1
      { name := none, inputs := 2, metadata := none, expectedOutput := none,
        evaluators := [] } rfl
  · exact (evaluate_unit_naming sampleDataset sampleTask sampleOptsRepeat2).2.1 2
      (by decide) 1
      { name := none, inputs := 2, metadata := none, expectedOutput := none,
        evaluators := [] } 1 rfl (by decide)

/-! ### Aggregation (`reporting/report.ts`) -/

/-- One observed score entry: bump the per-name count and running sum. -/
def scoreObserve (acc : AList Rat × AList Rat) (kv : String × EvaluationResult Rat) :
    AList Rat × AList Rat :=
  (aset acc.1 kv.1 ((alookup acc.1 kv.1).getD 0 + 1),
   aset acc.2 kv.1 ((alookup acc.2 kv.1).getD 0 + kv.2.value))

/-- One observed metric entry: bump the per-name count and running sum. -/
def metricObserve (acc : AList Rat × AList Rat) (kv : String × Rat) :
    AList Rat × AList Rat :=
  (aset acc.1 kv.1 ((alookup acc.1 kv.1).getD 0 + 1),
   aset acc.2 kv.1 ((alookup acc.2 kv.1).getD 0 + kv.2))

/-- One observed label entry: bump the per-name count and, inside that
name's value histogram, the occurrence count of the observed value. -/
def labelObserve (acc : AList Rat × AList (AList Rat))
    (kv : String × EvaluationResult String) : AList Rat × AList (AList Rat) :=
  (aset acc.1 kv.1 ((alookup acc.1 kv.1).getD 0 + 1),
   aset acc.2 kv.1
     (aset ((alookup acc.2 kv.1).getD []) kv.2.value
       ((alookup ((alookup acc.2 kv.1).getD []) kv.2.value).getD 0 + 1)))

/-- `averageCases`: aggregate statistics over a list of report cases — per
present key only averages for scores and metrics, per-name value
distributions for labels, a single pass rate for assertions (null when no
case has any assertion), and arithmetic-mean durations. -/
def averageCases {I O M : Type} (cases : List (ReportCase I O M)) : ReportCaseAggregate :=
  let n := cases.length
  if n = 0 then
    { name := "Averages", scores := [], labels := [], metrics := [],
      assertions := none, taskDuration := 0, totalDuration := 0 }
  else
    let scoreAcc := cases.foldl (fun acc c => c.scores.foldl scoreObserve acc)
      (([], []) : AList Rat × AList Rat)
    let avgScores := (akeys scoreAcc.2).map (fun k =>
      (k, (alookup scoreAcc.2 k).getD 0 / (alookup scoreAcc.1 k).getD 0))
    let labelAcc := cases.foldl (fun acc c => c.labels.foldl labelObserve acc)
      (([], []) : AList Rat × AList (AList Rat))
    let avgLabels := (akeys labelAcc.2).map (fun k =>
      (k, ((alookup labelAcc.2 k).getD []).map (fun lv =>
        (lv.1, lv.2 / (alookup labelAcc.1 k).getD 0))))
    let metricAcc := cases.foldl (fun acc c => c.metrics.foldl metricObserve acc)
      (([], []) : AList Rat × AList Rat)
    let avgMetrics := (akeys metricAcc.2).map (fun k =>
      (k, (alookup metricAcc.2 k).getD 0 / (alookup metricAcc.1 k).getD 0))
    let nAssertions : Nat := cases.foldl (fun sum c => sum + c.assertions.length) 0
    let avgAssertions : Option Rat :=
      if nAssertions > 0 then
        some (((cases.foldl (fun sum c =>
          sum + (c.assertions.filter (fun kv => kv.2.value)).length) 0 : Nat) : Rat) /
          (nAssertions : Rat))
      else none
    { name := "Averages", scores := avgScores, labels := avgLabels,
      metrics := avgMetrics, assertions := avgAssertions,
      taskDuration := (cases.foldl (fun sum c => sum + c.taskDuration) 0) / (n : Rat),
      totalDuration := (cases.foldl (fun sum c => sum + c.totalDuration) 0) / (n : Rat) }

theorem foldl_add_eq_sum_map {α : Type} (g : α → Nat) (l : List α) :
    ∀ init, l.foldl (fun s c => s + g c) init = init + (l.map g).sum := by
  induction l with
  | nil => intro init; simp
  | cons hd tl ih =>
    intro init
    rw [List.foldl_cons, ih, List.map_cons, List.sum_cons]
    omega

/-- C6: `averageCases []` is exactly the zero aggregate with null assertion
average; for a non-empty list the assertions field is the single pass rate
(count of true values across all assertion entries divided by the count of
all assertion entries), and it is none — not zero — when no case has any
assertion. -/
theorem averageCases_empty_and_passRate {I O M : Type} (cases : List (ReportCase I O M)) :
    ((averageCases ([] : List (ReportCase I O M))).scores = [] ∧
     (averageCases ([] : List (ReportCase I O M))).labels = [] ∧
     (averageCases ([] : List (ReportCase I O M))).metrics = [] ∧
     (averageCases ([] : List (ReportCase I O M))).assertions = none ∧
     (averageCases ([] : List (ReportCase I O M))).taskDuration = 0 ∧
     (averageCases ([] : List (ReportCase I O M))).totalDuration = 0) ∧
    (cases ≠ [] →
      (averageCases cases).assertions =
        (if (cases.map (fun c => c.assertions.length)).sum = 0 then none
         else some (((cases.map (fun c =>
             (c.assertions.filter (fun kv => kv.2.value)).length)).sum : Rat) /
           ((cases.map (fun c => c.assertions.length)).sum : Rat)))) := by
  refine ⟨⟨rfl, rfl, rfl, rfl, rfl, rfl⟩, fun hne => ?_⟩
  unfold averageCases
  rw [if_neg (fun h0 => hne (List.length_eq_zero.mp h0))]
  simp only [foldl_add_eq_sum_map, Nat.zero_add]
  by_cases h0 : (cases.map (fun c => c.assertions.length)).sum = 0
  · rw [if_pos h0, if_neg (by omega)]
  · rw [if_neg h0, if_pos (by omega)]
    congr 1
    rw [Nat.cast_list_sum, Nat.cast_list_sum, List.map_map, List.map_map]
    rfl

/-- Shared evaluator spec for the concrete report cases below. -/
def sampleSpec : EvaluatorSpec := { name := "E", arguments := none }

/-- A concrete report case with assertions true and false and label x. -/
def sampleReportCaseA : ReportCase Nat Nat Nat :=
  { name := "a", inputs := 1, metadata := none, expectedOutput := none, output := 1,
    metrics := [], attributes := [], scores := [],
    labels := [("l", ⟨"l", "x", none, sampleSpec⟩)],
    assertions := [("p", ⟨"p", true, none, sampleSpec⟩),
                   ("q", ⟨"q", false, none, sampleSpec⟩)],
    taskDuration := 0, totalDuration := 0, sourceCaseName := none,
    traceId := none, spanId := none, evaluatorFailures := [] }

/-- A concrete report case with assertions true and true and label y. -/
def sampleReportCaseB : ReportCase Nat Nat Nat :=
  { name := "b", inputs := 2, metadata := none, expectedOutput := none, output := 2,
    metrics := [], attributes := [], scores := [],
    labels := [("l", ⟨"l", "y", none, sampleSpec⟩)],
    assertions := [("p", ⟨"p", true, none, sampleSpec⟩),
                   ("q", ⟨"q", true, none, sampleSpec⟩)],
    taskDuration := 0, totalDuration := 0, sourceCaseName := none,
    traceId := none, spanId := none, evaluatorFailures := [] }

/-- Witness for C6: assertion values [true,false] and [true,true] across two
cases give pass rate 3/4. -/
theorem averageCases_passRate_witness :
    (averageCases [sampleReportCaseA, sampleReportCaseB]).assertions = some (3 / 4) := by
  have h := (averageCases_empty_and_passRate [sampleReportCaseA, sampleReportCaseB]).2
    (by simp)
  rw [h]
  norm_num [sampleReportCaseA, sampleReportCaseB]

theorem foldl_inner_eq_flatten {α β σ : Type} (g : α → List β) (f : σ → β → σ) :
    ∀ (l : List α) (init : σ),
      l.foldl (fun acc c => (g c).foldl f acc) init = (l.flatMap g).foldl f init := by
  intro l
  induction l with
  | nil => intro init; rfl
  | cons hd tl ih =>
    intro init
    rw [List.foldl_cons, List.flatMap_cons, List.foldl_append, ih]

/-- Invariant of the label-counting loop: count and histogram entries exist
for the same names, the histogram mass of a name equals its count, and
observed counts are at least 1. -/
def LabelInv (acc : AList Rat × AList (AList Rat)) : Prop :=
  ∀ k, (alookup acc.1 k = none ∧ alookup acc.2 k = none) ∨
    (∃ cnt dist, alookup acc.1 k = some cnt ∧ alookup acc.2 k = some dist ∧
      sumValues dist = cnt ∧ 1 ≤ cnt)

theorem labelObserve_inv (acc : AList Rat × AList (AList Rat))
    (kv : String × EvaluationResult String) (h : LabelInv acc) :
    LabelInv (labelObserve acc kv) := by
  intro k
  have hfst : (labelObserve acc kv).1 =
      aset acc.1 kv.1 ((alookup acc.1 kv.1).getD 0 + 1) := rfl
  have hsnd : (labelObserve acc kv).2 = aset acc.2 kv.1
      (aset ((alookup acc.2 kv.1).getD []) kv.2.value
        ((alookup ((alookup acc.2 kv.1).getD []) kv.2.value).getD 0 + 1)) := rfl
  rw [hfst, hsnd]
  by_cases hk : k = kv.1
  · subst hk
    right
    refine ⟨(alookup acc.1 kv.1).getD 0 + 1,
      aset ((alookup acc.2 kv.1).getD []) kv.2.value
        ((alookup ((alookup acc.2 kv.1).getD []) kv.2.value).getD 0 + 1),
      alookup_aset_self _ _ _, alookup_aset_self _ _ _, ?_, ?_⟩
    · rw [sumValues_aset]
      have hbase : sumValues ((alookup acc.2 kv.1).getD []) =
          (alookup acc.1 kv.1).getD 0 := by
        rcases h kv.1 with ⟨h1, h2⟩ | ⟨cnt, dist, h1, h2, hsum, -⟩
        · rw [h1, h2]; rfl
        · rw [h1, h2]; exact hsum
      rw [hbase]
      ring
    · rcases h kv.1 with ⟨h1, -⟩ | ⟨cnt, dist, h1, -, -, hge⟩
      · rw [h1]
        norm_num
      · rw [h1]
        simp only [Option.getD_some]
        linarith
  · rw [alookup_aset_ne _ _ _ _ hk, alookup_aset_ne _ _ _ _ hk]
    exact h k

theorem labelFold_inv (entries : List (String × EvaluationResult String)) :
    ∀ acc, LabelInv acc → LabelInv (entries.foldl labelObserve acc) := by
  induction entries with
  | nil => exact fun _ h => h
  | cons hd tl ih => exact fun acc h => ih _ (labelObserve_inv acc hd h)

theorem labelFold_present (k : String) (entries : List (String × EvaluationResult String)) :
    ∀ acc, (k ∈ entries.map Prod.fst ∨ (alookup acc.1 k).isSome) →
      (alookup (entries.foldl labelObserve acc).1 k).isSome := by
  induction entries with
  | nil =>
    intro acc h
    rcases h with h | h
    · simp at h
    · exact h
  | cons hd tl ih =>
    intro acc h
    rw [List.foldl_cons]
    by_cases hk : k = hd.1
    · apply ih
      right
      subst hk
      show (alookup (aset acc.1 hd.1 ((alookup acc.1 hd.1).getD 0 + 1)) hd.1).isSome
      rw [alookup_aset_self]
      rfl
    · apply ih
      rcases h with h | h
      · rw [List.map_cons, List.mem_cons] at h
        rcases h with h | h
        · exact absurd h hk
        · exact Or.inl h
      · right
        show (alookup (aset acc.1 hd.1 ((alookup acc.1 hd.1).getD 0 + 1)) k).isSome
        rw [alookup_aset_ne _ _ _ _ hk]
        exact h

theorem alookup_map_keys {β : Type} (ks : List String) (F : String → β) (k : String) :
    alookup (ks.map (fun k' => (k', F k'))) k = if k ∈ ks then some (F k) else none := by
  induction ks with
  | nil => simp [alookup]
  | cons hd tl ih =>
    by_cases h : hd = k
    · subst h
      simp [alookup, ih]
    · have h' : ¬ k = hd := fun hh => h hh.symm
      simp [alookup, h, h', ih]

theorem sumValues_map_div (l : AList Rat) (q : Rat) :
    sumValues (l.map (fun lv => (lv.1, lv.2 / q))) = sumValues l / q := by
  induction l with
  | nil => simp [sumValues]
  | cons hd tl ih =>
    simp only [sumValues, List.map_cons, List.map_map, List.sum_cons] at ih ⊢
    rw [ih, add_div]

/-- C9: for every non-empty list of cases and label name occurring in at
least one of them, the per-name label distribution returned by
`averageCases` sums to 1 across the observed values (exact rational
arithmetic: each fraction is an occurrence count over the count of cases
carrying the name). -/
theorem averageCases_labelDist_sums_one {I O M : Type}
    (cases : List (ReportCase I O M)) (k : String)
    (hocc : ∃ c ∈ cases, k ∈ akeys c.labels) :
    ∃ dist, alookup (averageCases cases).labels k = some dist ∧ sumValues dist = 1 := by
  have hne : cases.length ≠ 0 := by
    intro h0
    rw [List.length_eq_zero] at h0
    subst h0
    simp at hocc
  have hlabels : (averageCases cases).labels =
      (akeys (cases.foldl (fun acc c => c.labels.foldl labelObserve acc)
          (([], []) : AList Rat × AList (AList Rat))).2).map
        (fun k' => (k', ((alookup (cases.foldl (fun acc c =>
            c.labels.foldl labelObserve acc)
            (([], []) : AList Rat × AList (AList Rat))).2 k').getD []).map (fun lv =>
          (lv.1, lv.2 / (alookup (cases.foldl (fun acc c =>
            c.labels.foldl labelObserve acc)
            (([], []) : AList Rat × AList (AList Rat))).1 k').getD 0)))) := by
    unfold averageCases
    rw [if_neg hne]
  have hflat := foldl_inner_eq_flatten (fun c => c.labels) labelObserve cases
    (([], []) : AList Rat × AList (AList Rat))
  rw [hlabels, hflat, alookup_map_keys]
  have hmemflat : k ∈ (cases.flatMap (fun c => c.labels)).map Prod.fst := by
    obtain ⟨c, hc, hk⟩ := hocc
    unfold akeys at hk
    obtain ⟨kv, hkv, hkv1⟩ := List.mem_map.mp hk
    exact List.mem_map.mpr ⟨kv, List.mem_flatMap.mpr ⟨c, hc, hkv⟩, hkv1⟩
  have hpres : (alookup ((cases.flatMap (fun c => c.labels)).foldl labelObserve
      ([], [])).1 k).isSome :=
    labelFold_present k _ ([], []) (Or.inl hmemflat)
  have hinv := labelFold_inv (cases.flatMap (fun c => c.labels)) ([], [])
    (fun _ => Or.inl ⟨rfl, rfl⟩)
  rcases hinv k with ⟨h1, -⟩ | ⟨cnt, dist0, h1, h2, hsum, hge⟩
  · rw [h1] at hpres
    simp at hpres
  · have hkmem : k ∈ akeys ((cases.flatMap (fun c => c.labels)).foldl labelObserve
        ([], [])).2 := by
      rw [← alookup_isSome_iff, h2]
      rfl
    rw [if_pos hkmem]
    refine ⟨_, rfl, ?_⟩
    rw [h1, h2]
    simp only [Option.getD_some]
    rw [sumValues_map_div, hsum]
    exact div_self (ne_of_gt (lt_of_lt_of_le zero_lt_one hge))

/-- Witness for C9: the label "l" with values x and y over two cases has
distribution summing to 1. -/
theorem averageCases_labelDist_sums_one_witness :
    ∃ dist, alookup (averageCases [sampleReportCaseA, sampleReportCaseB]).labels "l" =
      some dist ∧ sumValues dist = 1 :=
  averageCases_labelDist_sums_one [sampleReportCaseA, sampleReportCaseB] "l"
    ⟨sampleReportCaseA, by simp, by decide⟩

/-- First-occurrence deduplication: the iteration order of a JS `Set` built
by inserting the elements of a list in order. -/
def dedupKeys : List String → List String
  | [] => []
  | k :: rest => k :: (dedupKeys rest).filter (fun k' => k' != k)

/-- `avgNumericDicts` (inside `averageFromAggregates`): per key present in
any dict, the mean of the values of the dicts that have the key. -/
def avgNumericDicts (dicts : List (AList Rat)) : AList Rat :=
  let allKeys := dedupKeys (dicts.flatMap akeys)
  allKeys.foldl (fun result key =>
    let vals := (dicts.filter (fun d => decide (key ∈ akeys d))).map
      (fun d => (alookup d key).getD 0)
    if vals.length > 0 then aset result key (vals.sum / (vals.length : Rat))
    else result) []

/-- Accumulate one aggregate into the (combined mass, reporting count) pair
for one label key (the inner loop of the label combination). -/
def combineLabelStep (key : String) (cc : AList Rat × Nat) (a : ReportCaseAggregate) :
    AList Rat × Nat :=
  if key ∈ akeys a.labels then
    (((alookup a.labels key).getD []).foldl (fun combined lv =>
      aset combined lv.1 ((alookup combined lv.1).getD 0 + lv.2)) cc.1,
     cc.2 + 1)
  else cc

/-- `averageFromAggregates`: combine per-group aggregates — present-key-only
means for scores and metrics, per-key mean of the reporting groups' label
distributions, plain mean of the non-null assertion averages, arithmetic
means of the durations. -/
def averageFromAggregates (aggregates : List ReportCaseAggregate) : ReportCaseAggregate :=
  if aggregates.length = 0 then
    { name := "Averages", scores := [], labels := [], metrics := [],
      assertions := none, taskDuration := 0, totalDuration := 0 }
  else
    let avgScores := avgNumericDicts (aggregates.map (fun a => a.scores))
    let avgMetrics := avgNumericDicts (aggregates.map (fun a => a.metrics))
    let allLabelKeys := dedupKeys (aggregates.flatMap (fun a => akeys a.labels))
    let avgLabels := allLabelKeys.foldl (fun avg key =>
      let cc := aggregates.foldl (combineLabelStep key) (([], 0) : AList Rat × Nat)
      aset avg key (cc.1.map (fun p => (p.1, p.2 / (cc.2 : Rat))))) []
    let assertionValues := (aggregates.filter (fun a => decide (a.assertions ≠ none))).map
      (fun a => a.assertions.getD 0)
    let avgAssertions : Option Rat :=
      if assertionValues.length > 0 then
        some (assertionValues.sum / (assertionValues.length : Rat))
      else none
    { name := "Averages", scores := avgScores, labels := avgLabels,
      metrics := avgMetrics, assertions := avgAssertions,
      taskDuration := (aggregates.foldl (fun sum a => sum + a.taskDuration) 0) /
        (aggregates.length : Rat),
      totalDuration := (aggregates.foldl (fun sum a => sum + a.totalDuration) 0) /
        (aggregates.length : Rat) }

/-- Total mass an association list assigns to one value key. -/
def distMass (l : AList Rat) (v : String) : Rat :=
  ((l.filter (fun p => p.1 == v)).map Prod.snd).sum

theorem distMass_nil (v : String) : distMass [] v = 0 := rfl

theorem distMass_cons (p : String × Rat) (l : AList Rat) (v : String) :
    distMass (p :: l) v = (if p.1 = v then p.2 else 0) + distMass l v := by
  by_cases h : p.1 = v
  · simp [distMass, List.filter_cons, h]
  · simp [distMass, List.filter_cons, h]

theorem distMass_aset_add (l : AList Rat) (k : String) (x : Rat) (v : String) :
    distMass (aset l k ((alookup l k).getD 0 + x)) v =
      distMass l v + (if k = v then x else 0) := by
  induction l with
  | nil =>
    simp only [aset, alookup, Option.getD_none, distMass_nil]
    rw [distMass_cons, distMass_nil]
    by_cases h : k = v <;> simp [h]
  | cons hd tl ih =>
    obtain ⟨k0, v0⟩ := hd
    by_cases h : k0 = k
    · subst h
      show distMass (aset ((k0, v0) :: tl) k0 ((alookup ((k0, v0) :: tl) k0).getD 0 + x))
          v = _
      rw [show aset ((k0, v0) :: tl) k0 ((alookup ((k0, v0) :: tl) k0).getD 0 + x) =
          (k0, v0 + x) :: tl by simp [aset, alookup]]
      rw [distMass_cons, distMass_cons]
      by_cases hv : k0 = v <;> simp [hv] <;> ring
    · rw [show aset ((k0, v0) :: tl) k ((alookup ((k0, v0) :: tl) k).getD 0 + x) =
          (k0, v0) :: aset tl k ((alookup tl k).getD 0 + x) by simp [aset, alookup, h]]
      rw [distMass_cons, distMass_cons, ih]
      ring

theorem innerFold_distMass (dist : AList Rat) : ∀ (cc : AList Rat) (v : String),
    distMass (dist.foldl (fun combined lv =>
      aset combined lv.1 ((alookup combined lv.1).getD 0 + lv.2)) cc) v =
    distMass cc v + distMass dist v := by
  induction dist with
  | nil => intro cc v; simp [distMass_nil]
  | cons lv rest ih =>
    intro cc v
    rw [List.foldl_cons, ih, distMass_aset_add, distMass_cons]
    ring

theorem distMass_map_div (l : AList Rat) (q : Rat) (v : String) :
    distMass (l.map (fun p => (p.1, p.2 / q))) v = distMass l v / q := by
  induction l with
  | nil => simp [distMass_nil, distMass]
  | cons hd tl ih =>
    rw [List.map_cons, distMass_cons, distMass_cons, ih, add_div]
    by_cases h : hd.1 = v <;> simp [h, zero_div]

theorem combineLabelStep_fst (key : String) (cc : AList Rat × Nat)
    (a : ReportCaseAggregate) :
    (combineLabelStep key cc a).1 =
      if key ∈ akeys a.labels then
        ((alookup a.labels key).getD []).foldl (fun combined lv =>
          aset combined lv.1 ((alookup combined lv.1).getD 0 + lv.2)) cc.1
      else cc.1 := by
  unfold combineLabelStep
  by_cases h : key ∈ akeys a.labels <;> simp [h]

theorem combineLabelStep_snd (key : String) (cc : AList Rat × Nat)
    (a : ReportCaseAggregate) :
    (combineLabelStep key cc a).2 =
      if key ∈ akeys a.labels then cc.2 + 1 else cc.2 := by
  unfold combineLabelStep
  by_cases h : key ∈ akeys a.labels <;> simp [h]

theorem combineLabelFold_spec (key : String) (aggs : List ReportCaseAggregate) :
    ∀ cc : AList Rat × Nat,
      ((aggs.foldl (combineLabelStep key) cc).2 =
        cc.2 + aggs.countP (fun a => decide (key ∈ akeys a.labels))) ∧
      (∀ v, distMass (aggs.foldl (combineLabelStep key) cc).1 v =
        distMass cc.1 v + (aggs.map (fun a => if key ∈ akeys a.labels
          then distMass ((alookup a.labels key).getD []) v else 0)).sum) := by
  induction aggs with
  | nil =>
    intro cc
    exact ⟨by simp, fun v => by simp⟩
  | cons a rest ih =>
    intro cc
    rw [List.foldl_cons]
    constructor
    · rw [(ih _).1, combineLabelStep_snd, List.countP_cons]
      by_cases h : key ∈ akeys a.labels
      · rw [if_pos h]
        simp [h]
        omega
      · rw [if_neg h]
        simp [h]
    · intro v
      rw [(ih _).2 v, combineLabelStep_fst, List.map_cons, List.sum_cons]
      by_cases h : key ∈ akeys a.labels
      · rw [if_pos h, if_pos h, innerFold_distMass]
        ring
      · rw [if_neg h, if_neg h]
        ring

theorem alookup_asetFold {β : Type} (G : String → β) (ks : List String) :
    ∀ (init : AList β) (k : String),
      alookup (ks.foldl (fun acc key => aset acc key (G key)) init) k =
        if k ∈ ks then some (G k) else alookup init k := by
  induction ks with
  | nil => intro init k; simp
  | cons hd tl ih =>
    intro init k
    rw [List.foldl_cons, ih]
    by_cases hmem : k ∈ tl
    · simp [hmem]
    · by_cases hk : k = hd
      · subst hk
        simp [hmem, alookup_aset_self]
      · simp [hmem, hk, alookup_aset_ne _ _ _ _ hk]

theorem mem_dedupKeys (l : List String) (k : String) : k ∈ dedupKeys l ↔ k ∈ l := by
  induction l with
  | nil => simp [dedupKeys]
  | cons hd tl ih =>
    unfold dedupKeys
    rw [List.mem_cons, List.mem_cons]
    by_cases h : k = hd
    · simp [h]
    · simp only [List.mem_filter, ih, h, false_or, bne_iff_ne, ne_eq,
        not_false_iff, and_true]

theorem filter_getD_eq_filterMap {α β : Type} (f : α → Option β) (d : β) (l : List α) :
    (l.filter (fun a => (f a).isSome)).map (fun a => (f a).getD d) =
      l.filterMap f := by
  induction l with
  | nil => rfl
  | cons hd tl ih =>
    rw [List.filter_cons, List.filterMap_cons]
    cases h : f hd with
    | none => simp [h, ih]
    | some b => simp [h, ih]

/-- C8 (amended): `averageFromAggregates` combines the label distributions
of its input aggregates as an unweighted mean over the groups that report
the label — the mass at each value is the plain sum of the reporting
groups' masses, not scaled by any sample count, divided by the number of
reporting groups; assertions are combined as a plain mean over the non-null
per-group assertion averages, with null-assertion groups excluded from the
mean rather than treated as zero. -/
theorem averageFromAggregates_label_and_assertions (aggs : List ReportCaseAggregate) :
    ((averageFromAggregates aggs).assertions =
      (if aggs.filterMap (fun a => a.assertions) = [] then none
       else some ((aggs.filterMap (fun a => a.assertions)).sum /
         ((aggs.filterMap (fun a => a.assertions)).length : Rat)))) ∧
    (∀ key, (∃ a ∈ aggs, key ∈ akeys a.labels) →
      ∃ dist, alookup (averageFromAggregates aggs).labels key = some dist ∧
        ∀ v, distMass dist v =
          (aggs.map (fun a => if key ∈ akeys a.labels
            then distMass ((alookup a.labels key).getD []) v else 0)).sum /
          (aggs.countP (fun a => decide (key ∈ akeys a.labels)) : Rat)) := by
  constructor
  · by_cases hlen : aggs.length = 0
    · have h0 : aggs = [] := List.length_eq_zero.mp hlen
      subst h0
      rfl
    · unfold averageFromAggregates
      rw [if_neg hlen]
      show (if ((aggs.filter (fun a => decide (a.assertions ≠ none))).map
          (fun a => a.assertions.getD 0)).length > 0 then
          some (((aggs.filter (fun a => decide (a.assertions ≠ none))).map
            (fun a => a.assertions.getD 0)).sum /
            ((((aggs.filter (fun a => decide (a.assertions ≠ none))).map
              (fun a => a.assertions.getD 0)).length : Nat) : Rat))
        else none) = _
      have hpred : (fun a : ReportCaseAggregate => decide (a.assertions ≠ none)) =
          (fun a : ReportCaseAggregate => a.assertions.isSome) := by
        funext a
        cases h : a.assertions <;> simp [h]
      rw [hpred, filter_getD_eq_filterMap]
      by_cases hemp : aggs.filterMap (fun a => a.assertions) = []
      · rw [if_pos hemp, hemp]
        rfl
      · rw [if_neg hemp, if_pos (List.length_pos.mpr hemp)]
  · intro key hkey
    have hlen : aggs.length ≠ 0 := by
      obtain ⟨a, ha, -⟩ := hkey
      intro h0
      rw [List.length_eq_zero] at h0
      subst h0
      simp at ha
    unfold averageFromAggregates
    rw [if_neg hlen]
    show ∃ dist, alookup ((dedupKeys (aggs.flatMap (fun a => akeys a.labels))).foldl
        (fun avg key => aset avg key ((aggs.foldl (combineLabelStep key)
          (([], 0) : AList Rat × Nat)).1.map
          (fun p => (p.1, p.2 / (((aggs.foldl (combineLabelStep key)
            (([], 0) : AList Rat × Nat)).2 : Nat) : Rat))))) []) key = some dist ∧ _
    rw [alookup_asetFold]
    have hmem : key ∈ dedupKeys (aggs.flatMap (fun a => akeys a.labels)) := by
      rw [mem_dedupKeys]
      obtain ⟨a, ha, hk⟩ := hkey
      exact List.mem_flatMap.mpr ⟨a, ha, hk⟩
    rw [if_pos hmem]
    refine ⟨_, rfl, fun v => ?_⟩
    rw [distMass_map_div, (combineLabelFold_spec key aggs ([], 0)).2 v,
      (combineLabelFold_spec key aggs ([], 0)).1]
    simp [distMass_nil]

/-- A concrete per-group summary: one group whose single run carried label
value x. -/
def c8agg1 : ReportCaseAggregate :=
  { name := "A", scores := [], labels := [("l", [("x", 1)])], metrics := [],
    assertions := none, taskDuration := 0, totalDuration := 0 }

/-- A concrete per-group summary: one group whose three runs all carried
label value y (its distribution is still y -> 1). -/
def c8agg2 : ReportCaseAggregate :=
  { name := "B", scores := [], labels := [("l", [("y", 1)])], metrics := [],
    assertions := none, taskDuration := 0, totalDuration := 0 }

/-- Modelled from the spec sentence of C8: the count-weighted label
combination the claim describes — each reporting group's raw distribution
mass scaled by that group's sample count, then renormalized by the number
of groups reporting the label.  Compared against the code's
`averageFromAggregates`. -/
def specCountWeightedLabelMass (groups : List (ReportCaseAggregate × Nat))
    (key v : String) : Rat :=
  ((groups.map (fun g => if key ∈ akeys g.1.labels
    then (g.2 : Rat) * distMass ((alookup g.1.labels key).getD []) v else 0)).sum) /
  ((groups.countP (fun g => decide (key ∈ akeys g.1.labels)) : Nat) : Rat)

/-- Counterexample for C8 as stated: for a 1-sample group carrying label
value x and a 3-sample group carrying label value y, the code's combined
mass at y is the unweighted 1/2, while the count-weighted formula the claim
states prescribes 3/2. -/
theorem averageFromAggregates_not_count_weighted :
    distMass ((alookup (averageFromAggregates [c8agg1, c8agg2]).labels "l").getD [])
      "y" = 1 / 2 ∧
    specCountWeightedLabelMass [(c8agg1, 1), (c8agg2, 3)] "l" "y" = 3 / 2 ∧
    (1 / 2 : Rat) ≠ 3 / 2 := by
  refine ⟨?_, ?_, by norm_num⟩
  · obtain ⟨dist, hdist, hmass⟩ :=
      (averageFromAggregates_label_and_assertions [c8agg1, c8agg2]).2 "l"
        ⟨c8agg1, by simp, by decide⟩
    rw [hdist]
    simp only [Option.getD_some]
    rw [hmass "y"]
    show ((if "l" ∈ akeys c8agg1.labels
        then distMass ((alookup c8agg1.labels "l").getD []) "y" else 0) +
      ((if "l" ∈ akeys c8agg2.labels
        then distMass ((alookup c8agg2.labels "l").getD []) "y" else 0) + 0)) /
      (([c8agg1, c8agg2].countP (fun a => decide ("l" ∈ akeys a.labels)) : Nat) : Rat) =
      1 / 2
    rw [if_pos (by decide), if_pos (by decide),
      show (([c8agg1, c8agg2].countP (fun a => decide ("l" ∈ akeys a.labels)) : Nat)) = 2
        from by decide,
      show distMass ((alookup c8agg1.labels "l").getD []) "y" = 0 from by
        rw [show (alookup c8agg1.labels "l").getD [] = [("x", 1)] from rfl]
        rw [show distMass [("x", 1)] "y" =
          ((List.filter (fun p => p.1 == "y") [("x", (1:Rat))]).map Prod.snd).sum from rfl]
        rw [List.filter_cons]
        rw [show ((("x", (1:Rat)).1 == "y")) = false from by decide]
        norm_num,
      show distMass ((alookup c8agg2.labels "l").getD []) "y" = 1 from by
        rw [show (alookup c8agg2.labels "l").getD [] = [("y", 1)] from rfl]
        rw [show distMass [("y", 1)] "y" =
          ((List.filter (fun p => p.1 == "y") [("y", (1:Rat))]).map Prod.snd).sum from rfl]
        rw [List.filter_cons]
        rw [show ((("y", (1:Rat)).1 == "y")) = true from by decide]
        norm_num [distMass]]
    norm_num
  · show ((if "l" ∈ akeys c8agg1.labels
        then ((1 : Nat) : Rat) * distMass ((alookup c8agg1.labels "l").getD []) "y" else 0) +
      ((if "l" ∈ akeys c8agg2.labels
        then ((3 : Nat) : Rat) * distMass ((alookup c8agg2.labels "l").getD []) "y" else 0) +
        0)) /
      (([(c8agg1, 1), (c8agg2, 3)].countP
        (fun g => decide ("l" ∈ akeys g.1.labels)) : Nat) : Rat) = 3 / 2
    rw [if_pos (by decide), if_pos (by decide),
      show (([(c8agg1, (1:Nat)), (c8agg2, 3)].countP
        (fun g => decide ("l" ∈ akeys g.1.labels)) : Nat)) = 2 from by decide,
      show distMass ((alookup c8agg1.labels "l").getD []) "y" = 0 from by
        rw [show (alookup c8agg1.labels "l").getD [] = [("x", 1)] from rfl]
        rw [show distMass [("x", 1)] "y" =
          ((List.filter (fun p => p.1 == "y") [("x", (1:Rat))]).map Prod.snd).sum from rfl]
        rw [List.filter_cons]
        rw [show ((("x", (1:Rat)).1 == "y")) = false from by decide]
        norm_num,
      show distMass ((alookup c8agg2.labels "l").getD []) "y" = 1 from by
        rw [show (alookup c8agg2.labels "l").getD [] = [("y", 1)] from rfl]
        rw [show distMass [("y", 1)] "y" =
          ((List.filter (fun p => p.1 == "y") [("y", (1:Rat))]).map Prod.snd).sum from rfl]
        rw [List.filter_cons]
        rw [show ((("y", (1:Rat)).1 == "y")) = true from by decide]
        norm_num [distMass]]
    norm_num

/-- Witness for C8 (amended): the combined distribution for the concrete
pair of aggregates exists and obeys the unweighted-mean formula. -/
theorem averageFromAggregates_label_and_assertions_witness :
    ∃ dist, alookup (averageFromAggregates [c8agg1, c8agg2]).labels "l" = some dist ∧
      ∀ v, distMass dist v =
        ([c8agg1, c8agg2].map (fun a => if "l" ∈ akeys a.labels
          then distMass ((alookup a.labels "l").getD []) v else 0)).sum /
        (([c8agg1, c8agg2].countP (fun a => decide ("l" ∈ akeys a.labels)) : Nat) : Rat) :=
  (averageFromAggregates_label_and_assertions [c8agg1, c8agg2]).2 "l"
    ⟨c8agg1, by simp, by decide⟩

/-! ### Case grouping and report averages (`reporting/report.ts`) -/

/-- Group key of a successful run: `sourceCaseName ?? name`. -/
def caseGroupKey {I O M : Type} (c : ReportCase I O M) : String :=
  c.sourceCaseName.getD c.name

/-- Group key of a failure: `sourceCaseName ?? name`. -/
def failureGroupKey {I O M : Type} (f : ReportCaseFailure I O M) : String :=
  f.sourceCaseName.getD f.name

/-- The per-key accumulator entry of `computeCaseGroups`. -/
structure GroupEntry (I O M : Type) where
  runs : List (ReportCase I O M)
  failures : List (ReportCaseFailure I O M)
deriving DecidableEq, Repr

/-- Push one successful run onto its group (creating the group if needed). -/
def groupAddRun {I O M : Type} (gs : AList (GroupEntry I O M)) (c : ReportCase I O M) :
    AList (GroupEntry I O M) :=
  let e := (alookup gs (caseGroupKey c)).getD ⟨[], []⟩
  aset gs (caseGroupKey c) { e with runs := e.runs ++ [c] }

/-- Push one failure onto its group (creating the group if needed). -/
def groupAddFailure {I O M : Type} (gs : AList (GroupEntry I O M))
    (f : ReportCaseFailure I O M) : AList (GroupEntry I O M) :=
  let e := (alookup gs (failureGroupKey f)).getD ⟨[], []⟩
  aset gs (failureGroupKey f) { e with failures := e.failures ++ [f] }

/-- Build one `ReportCaseGroup` from a grouped entry; the representative is
`runs[0] ?? failures[0]!` — the third branch mirrors the non-null assertion
and is unreachable because every group is created non-empty. -/
def mkCaseGroup {I O M : Type} [Inhabited I] (kv : String × GroupEntry I O M) :
    ReportCaseGroup I O M :=
  match kv.2.runs, kv.2.failures with
  | r :: _, _ =>
    { name := kv.1, inputs := r.inputs, metadata := r.metadata,
      expectedOutput := r.expectedOutput, runs := kv.2.runs,
      failures := kv.2.failures, summary := averageCases kv.2.runs }
  | [], f :: _ =>
    { name := kv.1, inputs := f.inputs, metadata := f.metadata,
      expectedOutput := f.expectedOutput, runs := kv.2.runs,
      failures := kv.2.failures, summary := averageCases kv.2.runs }
  | [], [] =>
    { name := kv.1, inputs := default, metadata := none, expectedOutput := none,
      runs := kv.2.runs, failures := kv.2.failures,
      summary := averageCases kv.2.runs }

/-- `computeCaseGroups` (`report.caseGroups()`): null when no case or
failure carries a source case name; otherwise group cases and failures by
`sourceCaseName ?? name` in first-occurrence order. -/
def computeCaseGroups {I O M : Type} [Inhabited I] (report : EvaluationReport I O M) :
    Option (List (ReportCaseGroup I O M)) :=
  let hasSourceNames := report.cases.any (fun c => c.sourceCaseName.isSome) ||
    report.failures.any (fun f => f.sourceCaseName.isSome)
  if !hasSourceNames then none
  else
    let g1 := report.cases.foldl groupAddRun []
    let g2 := report.failures.foldl groupAddFailure g1
    some (g2.map mkCaseGroup)

/-- `computeAverages` (`report.averages()`): over the non-empty groups'
summaries when grouping applies, over the top-level cases otherwise, null
when the relevant collection is empty. -/
def computeAverages {I O M : Type} [Inhabited I] (report : EvaluationReport I O M) :
    Option ReportCaseAggregate :=
  match computeCaseGroups report with
  | some groups =>
    let nonEmpty := (groups.filter (fun g => decide (g.runs.length > 0))).map
      (fun g => g.summary)
    if nonEmpty.length > 0 then some (averageFromAggregates nonEmpty) else none
  | none =>
    if report.cases.length > 0 then some (averageCases report.cases) else none

theorem mkCaseGroup_fields {I O M : Type} [Inhabited I] (kv : String × GroupEntry I O M) :
    (mkCaseGroup kv).name = kv.1 ∧ (mkCaseGroup kv).runs = kv.2.runs ∧
    (mkCaseGroup kv).failures = kv.2.failures ∧
    (mkCaseGroup kv).summary = averageCases kv.2.runs := by
  unfold mkCaseGroup
  rcases hr : kv.2.runs with - | ⟨r, rest⟩ <;> rcases hf : kv.2.failures with - | ⟨f, fs⟩ <;>
    simp [hr, hf]

theorem groupAddRun_fold_lookup {I O M : Type} (cs : List (ReportCase I O M)) :
    ∀ (g : AList (GroupEntry I O M)) (k : String),
      alookup (cs.foldl groupAddRun g) k =
        if (alookup g k).isSome ∨ cs.any (fun c => caseGroupKey c == k) then
          some { runs := ((alookup g k).getD ⟨[], []⟩).runs ++
                   cs.filter (fun c => caseGroupKey c == k),
                 failures := ((alookup g k).getD ⟨[], []⟩).failures }
        else none := by
  induction cs with
  | nil =>
    intro g k
    simp only [List.foldl_nil, List.any_nil, List.filter_nil, List.append_nil, or_false]
    cases h : alookup g k with
    | none => simp [h]
    | some e => simp [h]
  | cons c rest ih =>
    intro g k
    rw [List.foldl_cons, ih]
    by_cases hck : caseGroupKey c = k
    · have hlook : alookup (groupAddRun g c) k =
          some { runs := ((alookup g k).getD ⟨[], []⟩).runs ++ [c],
                 failures := ((alookup g k).getD ⟨[], []⟩).failures } := by
        unfold groupAddRun
        rw [hck, alookup_aset_self]
      rw [hlook]
      have hany : (c :: rest).any (fun c => caseGroupKey c == k) = true := by
        simp [List.any_cons, hck]
      have hfil : (c :: rest).filter (fun c => caseGroupKey c == k) =
          c :: rest.filter (fun c => caseGroupKey c == k) := by
        simp [List.filter_cons, hck]
      rw [if_pos (Or.inl (by simp)), hany, hfil]
      rw [if_pos (Or.inr rfl)]
      simp [List.append_assoc]
    · have hlook : alookup (groupAddRun g c) k = alookup g k := by
        unfold groupAddRun
        exact alookup_aset_ne _ _ _ _ (fun h => hck h.symm)
      rw [hlook]
      have hfil : (c :: rest).filter (fun c => caseGroupKey c == k) =
          rest.filter (fun c => caseGroupKey c == k) := by
        simp [List.filter_cons, hck]
      have hany : (c :: rest).any (fun c => caseGroupKey c == k) =
          rest.any (fun c => caseGroupKey c == k) := by
        simp [List.any_cons, hck]
      rw [hfil, hany]

theorem groupAddFailure_fold_lookup {I O M : Type} (fs : List (ReportCaseFailure I O M)) :
    ∀ (g : AList (GroupEntry I O M)) (k : String),
      alookup (fs.foldl groupAddFailure g) k =
        if (alookup g k).isSome ∨ fs.any (fun f => failureGroupKey f == k) then
          some { runs := ((alookup g k).getD ⟨[], []⟩).runs,
                 failures := ((alookup g k).getD ⟨[], []⟩).failures ++
                   fs.filter (fun f => failureGroupKey f == k) }
        else none := by
  induction fs with
  | nil =>
    intro g k
    simp only [List.foldl_nil, List.any_nil, List.filter_nil, List.append_nil, or_false]
    cases h : alookup g k with
    | none => simp [h]
    | some e => simp [h]
  | cons f rest ih =>
    intro g k
    rw [List.foldl_cons, ih]
    by_cases hfk : failureGroupKey f = k
    · have hlook : alookup (groupAddFailure g f) k =
          some { runs := ((alookup g k).getD ⟨[], []⟩).runs,
                 failures := ((alookup g k).getD ⟨[], []⟩).failures ++ [f] } := by
        unfold groupAddFailure
        rw [hfk, alookup_aset_self]
      rw [hlook]
      have hfil : (f :: rest).filter (fun f => failureGroupKey f == k) =
          f :: rest.filter (fun f => failureGroupKey f == k) := by
        simp [List.filter_cons, hfk]
      rw [if_pos (Or.inl (by simp)), hfil]
      rw [if_pos (Or.inr (by simp [List.any_cons, hfk]))]
      simp [List.append_assoc]
    · have hlook : alookup (groupAddFailure g f) k = alookup g k := by
        unfold groupAddFailure
        exact alookup_aset_ne _ _ _ _ (fun h => hfk h.symm)
      rw [hlook]
      have hfil : (f :: rest).filter (fun f => failureGroupKey f == k) =
          rest.filter (fun f => failureGroupKey f == k) := by
        simp [List.filter_cons, hfk]
      have hany : (f :: rest).any (fun f => failureGroupKey f == k) =
          rest.any (fun f => failureGroupKey f == k) := by
        simp [List.any_cons, hfk]
      rw [hfil, hany]

theorem akeys_aset {α : Type} (l : AList α) (k : String) (v : α) :
    akeys (aset l k v) = if k ∈ akeys l then akeys l else akeys l ++ [k] := by
  induction l with
  | nil => simp [aset, akeys]
  | cons hd tl ih =>
    obtain ⟨k0, v0⟩ := hd
    by_cases h : k0 = k
    · subst h
      simp [aset, akeys]
    · have h' : ¬ k = k0 := fun hh => h hh.symm
      simp only [aset, if_neg h, akeys, List.map_cons, List.mem_cons, h', false_or]
      rw [show akeys (aset tl k v) = List.map Prod.fst (aset tl k v) from rfl] at ih
      rw [ih]
      by_cases hmem : k ∈ List.map Prod.fst tl
      · simp [hmem, akeys]
      · simp [hmem, akeys]

theorem dedupKeys_filter (p : String → Bool) (l : List String) :
    dedupKeys (l.filter p) = (dedupKeys l).filter p := by
  induction l with
  | nil => rfl
  | cons hd tl ih =>
    rw [List.filter_cons]
    by_cases hp : p hd
    · rw [if_pos hp]
      unfold dedupKeys
      rw [ih, List.filter_cons, if_pos hp]
      congr 1
      rw [List.filter_filter, List.filter_filter]
      apply List.filter_congr
      intro a _
      exact Bool.and_comm _ _
    · rw [if_neg hp, ih]
      rw [show dedupKeys (hd :: tl) =
        hd :: (dedupKeys tl).filter (fun k' => k' != hd) from rfl]
      rw [List.filter_cons, if_neg hp, List.filter_filter]
      apply List.filter_congr
      intro a _
      by_cases ha : a = hd
      · subst ha
        simp [hp]
      · simp [ha]

theorem dedupKeys_append (a b : List String) :
    dedupKeys (a ++ b) =
      dedupKeys a ++ dedupKeys (b.filter (fun k => decide (k ∉ a))) := by
  induction a with
  | nil =>
    simp only [List.nil_append, dedupKeys]
    rw [show b.filter (fun k => decide (k ∉ ([] : List String))) = b.filter (fun _ => true)
      from List.filter_congr (fun a _ => by simp)]
    rw [List.filter_true]
  | cons hd tl ih =>
    rw [List.cons_append]
    rw [show dedupKeys (hd :: (tl ++ b)) =
      hd :: (dedupKeys (tl ++ b)).filter (fun k' => k' != hd) from rfl]
    rw [show dedupKeys (hd :: tl) =
      hd :: (dedupKeys tl).filter (fun k' => k' != hd) from rfl]
    rw [ih, List.filter_append, List.cons_append]
    congr 1
    congr 1
    rw [← dedupKeys_filter, List.filter_filter]
    exact congrArg dedupKeys (List.filter_congr (fun k _ => by
      by_cases hk : k = hd
      · subst hk
        simp
      · by_cases hmem : k ∈ tl <;> simp [hk, hmem]))

theorem dedupKeys_nodup (l : List String) : (dedupKeys l).Nodup := by
  induction l with
  | nil => simp [dedupKeys]
  | cons hd tl ih =>
    unfold dedupKeys
    rw [List.nodup_cons]
    refine ⟨fun hmem => ?_, List.Nodup.filter _ ih⟩
    rw [List.mem_filter] at hmem
    simp at hmem

theorem alookup_of_mem_nodup {α : Type} (l : AList α) (p : String × α)
    (hnd : (akeys l).Nodup) (hp : p ∈ l) : alookup l p.1 = some p.2 := by
  induction l with
  | nil => simp at hp
  | cons hd tl ih =>
    obtain ⟨k0, v0⟩ := hd
    rw [List.mem_cons] at hp
    rcases hp with hp | hp
    · rw [hp]
      simp [alookup]
    · have hk0 : k0 ∈ akeys ((k0, v0) :: tl) := by simp [akeys]
      have hnd' : k0 ∉ akeys tl ∧ (akeys tl).Nodup := by
        rw [show akeys ((k0, v0) :: tl) = k0 :: akeys tl from rfl, List.nodup_cons] at hnd
        exact hnd
      have hne : ¬ k0 = p.1 := by
        intro he
        exact hnd'.1 (he ▸ List.mem_map.mpr ⟨p, hp, rfl⟩)
      simp only [alookup, if_neg hne]
      exact ih hnd'.2 hp

theorem groupAddRun_fold_keys {I O M : Type} (cs : List (ReportCase I O M)) :
    ∀ g, akeys (cs.foldl groupAddRun g) = akeys g ++
      dedupKeys ((cs.map caseGroupKey).filter (fun k => decide (k ∉ akeys g))) := by
  induction cs with
  | nil =>
    intro g
    simp [dedupKeys]
  | cons c rest ih =>
    intro g
    rw [List.foldl_cons, ih, List.map_cons, List.filter_cons]
    by_cases hmem : caseGroupKey c ∈ akeys g
    · have hk : akeys (groupAddRun g c) = akeys g := by
        unfold groupAddRun
        rw [akeys_aset, if_pos hmem]
      rw [hk, if_neg (by simp [hmem])]
    · have hk : akeys (groupAddRun g c) = akeys g ++ [caseGroupKey c] := by
        unfold groupAddRun
        rw [akeys_aset, if_neg hmem]
      rw [hk, if_pos (by simp [hmem]), List.append_assoc]
      congr 1
      rw [show dedupKeys (caseGroupKey c :: (rest.map caseGroupKey).filter
          (fun k => decide (k ∉ akeys g))) =
        caseGroupKey c :: (dedupKeys ((rest.map caseGroupKey).filter
          (fun k => decide (k ∉ akeys g)))).filter
          (fun k' => k' != caseGroupKey c) from rfl]
      rw [List.singleton_append]
      congr 1
      rw [← dedupKeys_filter, List.filter_filter]
      exact congrArg dedupKeys (List.filter_congr (fun k _ => by
        by_cases hk1 : k = caseGroupKey c
        · subst hk1
          simp
        · by_cases hk2 : k ∈ akeys g <;> simp [hk1, hk2]))

theorem groupAddFailure_fold_keys {I O M : Type} (fs : List (ReportCaseFailure I O M)) :
    ∀ g, akeys (fs.foldl groupAddFailure g) = akeys g ++
      dedupKeys ((fs.map failureGroupKey).filter (fun k => decide (k ∉ akeys g))) := by
  induction fs with
  | nil =>
    intro g
    simp [dedupKeys]
  | cons f rest ih =>
    intro g
    rw [List.foldl_cons, ih, List.map_cons, List.filter_cons]
    by_cases hmem : failureGroupKey f ∈ akeys g
    · have hk : akeys (groupAddFailure g f) = akeys g := by
        unfold groupAddFailure
        rw [akeys_aset, if_pos hmem]
      rw [hk, if_neg (by simp [hmem])]
    · have hk : akeys (groupAddFailure g f) = akeys g ++ [failureGroupKey f] := by
        unfold groupAddFailure
        rw [akeys_aset, if_neg hmem]
      rw [hk, if_pos (by simp [hmem]), List.append_assoc]
      congr 1
      rw [show dedupKeys (failureGroupKey f :: (rest.map failureGroupKey).filter
          (fun k => decide (k ∉ akeys g))) =
        failureGroupKey f :: (dedupKeys ((rest.map failureGroupKey).filter
          (fun k => decide (k ∉ akeys g)))).filter
          (fun k' => k' != failureGroupKey f) from rfl]
      rw [List.singleton_append]
      congr 1
      rw [← dedupKeys_filter, List.filter_filter]
      exact congrArg dedupKeys (List.filter_congr (fun k _ => by
        by_cases hk1 : k = failureGroupKey f
        · subst hk1
          simp
        · by_cases hk2 : k ∈ akeys g <;> simp [hk1, hk2]))

theorem computeCaseGroups_none_iff {I O M : Type} [Inhabited I]
    (report : EvaluationReport I O M) :
    computeCaseGroups report = none ↔
      (∀ c ∈ report.cases, c.sourceCaseName = none) ∧
      (∀ f ∈ report.failures, f.sourceCaseName = none) := by
  unfold computeCaseGroups
  by_cases hsn : (report.cases.any (fun c => c.sourceCaseName.isSome) ||
      report.failures.any (fun f => f.sourceCaseName.isSome)) = true
  · rw [hsn]
    simp only [Bool.not_true, Bool.false_eq_true, if_false]
    constructor
    · intro h
      exact absurd h (by simp)
    · intro h
      rw [Bool.or_eq_true, List.any_eq_true, List.any_eq_true] at hsn
      rcases hsn with ⟨c, hc, hcs⟩ | ⟨f, hf, hfs⟩
      · rw [h.1 c hc] at hcs
        simp at hcs
      · rw [h.2 f hf] at hfs
        simp at hfs
  · have hsn' : (report.cases.any (fun c => c.sourceCaseName.isSome) ||
        report.failures.any (fun f => f.sourceCaseName.isSome)) = false := by
      simpa using hsn
    rw [hsn']
    simp only [Bool.not_false, if_true, true_iff]
    rw [Bool.or_eq_false_iff] at hsn'
    constructor
    · intro c hc
      have := List.any_eq_false.mp hsn'.1 c hc
      simpa [Option.not_isSome_iff_eq_none] using this
    · intro f hf
      have := List.any_eq_false.mp hsn'.2 f hf
      simpa [Option.not_isSome_iff_eq_none] using this

theorem computeCaseGroups_some_eq {I O M : Type} [Inhabited I]
    (report : EvaluationReport I O M) (gs : List (ReportCaseGroup I O M))
    (hsome : computeCaseGroups report = some gs) :
    gs = (report.failures.foldl groupAddFailure
      (report.cases.foldl groupAddRun [])).map mkCaseGroup := by
  unfold computeCaseGroups at hsome
  by_cases hsn : (report.cases.any (fun c => c.sourceCaseName.isSome) ||
      report.failures.any (fun f => f.sourceCaseName.isSome)) = true
  · rw [hsn] at hsome
    simp only [Bool.not_true, Bool.false_eq_true, if_false, Option.some.injEq] at hsome
    exact hsome.symm
  · have hsn' : (report.cases.any (fun c => c.sourceCaseName.isSome) ||
        report.failures.any (fun f => f.sourceCaseName.isSome)) = false := by
      simpa using hsn
    rw [hsn'] at hsome
    simp at hsome

theorem groupFold_akeys {I O M : Type} (report : EvaluationReport I O M) :
    akeys (report.failures.foldl groupAddFailure
      (report.cases.foldl groupAddRun ([] : AList (GroupEntry I O M)))) =
    dedupKeys (report.cases.map caseGroupKey ++ report.failures.map failureGroupKey) := by
  rw [groupAddFailure_fold_keys, groupAddRun_fold_keys]
  have h1 : akeys ([] : AList (GroupEntry I O M)) = [] := rfl
  rw [h1, List.nil_append]
  have h2 : (report.cases.map caseGroupKey).filter
      (fun k => decide (k ∉ ([] : List String))) = report.cases.map caseGroupKey := by
    rw [show (fun k => decide (k ∉ ([] : List String))) = (fun _ : String => true) from
      funext (fun k => by simp)]
    exact List.filter_true _
  rw [h2, dedupKeys_append]
  congr 1
  exact congrArg dedupKeys (List.filter_congr (fun k _ => by simp [mem_dedupKeys]))

theorem groupFold_entry {I O M : Type} (report : EvaluationReport I O M)
    (kv : String × GroupEntry I O M)
    (hmem : kv ∈ report.failures.foldl groupAddFailure
      (report.cases.foldl groupAddRun ([] : AList (GroupEntry I O M)))) :
    kv.2.runs = report.cases.filter (fun c => caseGroupKey c == kv.1) ∧
    kv.2.failures = report.failures.filter (fun f => failureGroupKey f == kv.1) := by
  have hnd : (akeys (report.failures.foldl groupAddFailure
      (report.cases.foldl groupAddRun ([] : AList (GroupEntry I O M))))).Nodup := by
    rw [groupFold_akeys]
    exact dedupKeys_nodup _
  have hlook := alookup_of_mem_nodup _ kv hnd hmem
  rw [groupAddFailure_fold_lookup] at hlook
  rw [groupAddRun_fold_lookup] at hlook
  have hlooknil : alookup ([] : AList (GroupEntry I O M)) kv.1 = none := rfl
  rw [hlooknil] at hlook
  simp only [Option.isSome_none, Bool.false_eq_true, false_or, Option.getD_none] at hlook
  by_cases hany : report.cases.any (fun c => caseGroupKey c == kv.1) = true
  · rw [if_pos hany] at hlook
    simp only [Option.isSome_some, true_or, if_true, Option.getD_some,
      Option.some.injEq] at hlook
    rw [← hlook]
    exact ⟨by simp, by simp⟩
  · have hany' : report.cases.any (fun c => caseGroupKey c == kv.1) = false := by
      simpa using hany
    rw [hany'] at hlook
    simp only [Bool.false_eq_true, if_false, Option.isSome_none, false_or,
      Option.getD_none] at hlook
    have hfilnil : report.cases.filter (fun c => caseGroupKey c == kv.1) = [] := by
      rw [List.filter_eq_nil_iff]
      intro c hc
      have := List.any_eq_false.mp hany' c hc
      simpa using this
    by_cases hanyf : report.failures.any (fun f => failureGroupKey f == kv.1) = true
    · rw [if_pos hanyf] at hlook
      simp only [Option.some.injEq] at hlook
      rw [← hlook, hfilnil]
      exact ⟨rfl, by simp⟩
    · have hanyf' : report.failures.any (fun f => failureGroupKey f == kv.1) = false := by
        simpa using hanyf
      rw [hanyf'] at hlook
      simp at hlook

/-- C7: `caseGroups()` returns null exactly when no ReportCase and no
ReportCaseFailure carries a sourceCaseName; otherwise it groups all cases
and failures by the key `sourceCaseName ?? name`, producing one group per
distinct key (in first-occurrence order) whose runs and failures are
exactly the entries with that key and whose summary equals `averageCases`
over only that group's successful runs; `averages()` returns
`averageFromAggregates` over the summaries of the groups with at least one
successful run when grouping applies (null when every group has none), and
otherwise `averageCases` over the top-level cases (null when there are
none). -/
theorem caseGroups_averages_spec {I O M : Type} [Inhabited I]
    (report : EvaluationReport I O M) :
    (computeCaseGroups report = none ↔
      (∀ c ∈ report.cases, c.sourceCaseName = none) ∧
      (∀ f ∈ report.failures, f.sourceCaseName = none)) ∧
    (∀ gs, computeCaseGroups report = some gs →
      gs.map (fun g => g.name) =
        dedupKeys (report.cases.map caseGroupKey ++
          report.failures.map failureGroupKey) ∧
      ∀ g ∈ gs,
        g.runs = report.cases.filter (fun c => caseGroupKey c == g.name) ∧
        g.failures = report.failures.filter (fun f => failureGroupKey f == g.name) ∧
        g.summary = averageCases g.runs) ∧
    (∀ gs, computeCaseGroups report = some gs →
      ((∃ g ∈ gs, g.runs ≠ []) →
        computeAverages report = some (averageFromAggregates
          ((gs.filter (fun g => decide (g.runs.length > 0))).map
            (fun g => g.summary)))) ∧
      ((∀ g ∈ gs, g.runs = []) → computeAverages report = none)) ∧
    (computeCaseGroups report = none →
      (report.cases ≠ [] → computeAverages report = some (averageCases report.cases)) ∧
      (report.cases = [] → computeAverages report = none)) := by
  refine ⟨computeCaseGroups_none_iff report, fun gs hsome => ?_, fun gs hsome => ?_,
    fun hnone => ?_⟩
  · have hgs := computeCaseGroups_some_eq report gs hsome
    subst hgs
    constructor
    · rw [List.map_map]
      rw [show ((fun g : ReportCaseGroup I O M => g.name) ∘ mkCaseGroup) =
        (Prod.fst : String × GroupEntry I O M → String) from
        funext (fun kv => (mkCaseGroup_fields kv).1)]
      exact groupFold_akeys report
    · intro g hg
      obtain ⟨kv, hkv, rfl⟩ := List.mem_map.mp hg
      obtain ⟨f1, f2, f3, f4⟩ := mkCaseGroup_fields kv
      obtain ⟨e1, e2⟩ := groupFold_entry report kv hkv
      rw [f1, f2, f3, f4]
      exact ⟨e1, e2, rfl⟩
  · constructor
    · intro hex
      have hlen : ((gs.filter (fun g => decide (g.runs.length > 0))).map
          (fun g => g.summary)).length > 0 := by
        obtain ⟨g, hg, hgr⟩ := hex
        have hmem : g ∈ gs.filter (fun g => decide (g.runs.length > 0)) :=
          List.mem_filter.mpr ⟨hg, by simp [List.length_pos.mpr hgr]⟩
        rw [List.length_map]
        exact List.length_pos.mpr (List.ne_nil_of_mem hmem)
      simp only [computeAverages, hsome]
      rw [if_pos hlen]
    · intro hall
      have hfil : gs.filter (fun g => decide (g.runs.length > 0)) = [] := by
        rw [List.filter_eq_nil_iff]
        intro g hg
        simp [hall g hg]
      simp only [computeAverages, hsome, hfil]
      rfl
  · constructor
    · intro hne
      simp only [computeAverages, hnone]
      rw [if_pos (List.length_pos.mpr hne)]
    · intro hnil
      simp only [computeAverages, hnone, hnil]
      rfl

/-- A successful repeated run linked to source case A. -/
def repeatCaseA : ReportCase Nat Nat Nat :=
  { sampleReportCaseA with name := "A [1/2]", sourceCaseName := some "A" }

/-- A failed repeated run linked to source case B. -/
def repeatFailureB : ReportCaseFailure Nat Nat Nat :=
  { name := "B [1/2]", inputs := 2, metadata := none, expectedOutput := none,
    errorMessage := "TypeError: boom", errorStacktrace := "",
    sourceCaseName := some "B", traceId := none, spanId := none }

/-- A concrete repeated-run report: one successful run in group A and one
failure in group B. -/
def sampleRepeatReport : EvaluationReport Nat Nat Nat :=
  { name := "run", cases := [repeatCaseA], failures := [repeatFailureB],
    analyses := [], reportEvaluatorFailures := [], experimentMetadata := none,
    traceId := none, spanId := none }

/-- Witness for C7: the concrete repeated report groups into A and B, and
its averages are taken over the non-empty group A only. -/
theorem caseGroups_averages_spec_witness :
    ∃ gs, computeCaseGroups sampleRepeatReport = some gs ∧
      gs.map (fun g => g.name) =
        dedupKeys (sampleRepeatReport.cases.map caseGroupKey ++
          sampleRepeatReport.failures.map failureGroupKey) ∧
      computeAverages sampleRepeatReport = some (averageFromAggregates
        ((gs.filter (fun g => decide (g.runs.length > 0))).map
          (fun g => g.summary))) := by
  cases hsome : computeCaseGroups sampleRepeatReport with
  | none =>
    have h := (caseGroups_averages_spec sampleRepeatReport).1.mp hsome
    have hA := h.1 repeatCaseA (by simp [sampleRepeatReport])
    exact absurd hA (by simp [repeatCaseA, sampleReportCaseA])
  | some gs =>
    have hnames := ((caseGroups_averages_spec sampleRepeatReport).2.1 gs hsome).1
    have hchar := ((caseGroups_averages_spec sampleRepeatReport).2.1 gs hsome).2
    refine ⟨gs, rfl, hnames, ?_⟩
    apply ((caseGroups_averages_spec sampleRepeatReport).2.2.1 gs hsome).1
    have hA : "A" ∈ gs.map (fun g => g.name) := by
      rw [hnames]
      decide
    obtain ⟨g, hg, hgname⟩ := List.mem_map.mp hA
    have hruns := (hchar g hg).1
    rw [hgname] at hruns
    have hconc : g.runs = [repeatCaseA] := by
      rw [hruns]
      rfl
    exact ⟨g, hg, by rw [hconc]; simp⟩
